import Mathlib

/-!
# SNOW Update Center — formal model and verification

A shallow embedding of the batch Store-update installer (ServiceNow scoped app
`x_snc_update_center`) and proofs about it.  The embedding follows the
JavaScript source:

* `UpdateAnalyzer` (version classification, dependency analysis, topological
  sort) from the script include;
* `ActivityLogger` (per-instance sequence counter, log entry construction);
* `BatchUpdateManager` (`createBatchRequest`, `executeBatchInstall`,
  `cancelBatchInstall`, `_createBatchItems`);
* the "Monitor Batch Progress" flow script (polling loop, per-item progress
  estimation, ground-truth sync against the package inventory, finalization).

GlideRecord stores are modelled as explicit lists/options threaded through the
functions; external collaborators (progress worker reads, the package
inventory, `sys_app_version` lookups) are modelled as function parameters.
JavaScript strings are modelled by Lean `String`, with the JS operations
(`split`, `trim`, `toLowerCase`, `indexOf`) re-implemented structurally over
the character list so that every definition evaluates by kernel reduction.
-/

/-! ## JavaScript string primitives -/

/-- One splitting step of `String.prototype.split(sep)` for a one-character
separator: walk the characters, cutting at each separator occurrence.
`acc` holds the (reversed) characters of the piece being built. -/
def jsSplitGo (sep : Char) : List Char → List Char → List String
  | [], acc => [String.mk acc.reverse]
  | c :: rest, acc =>
    if c = sep then String.mk acc.reverse :: jsSplitGo sep rest []
    else jsSplitGo sep rest (c :: acc)

/-- JS `s.split(sep)` for a one-character separator.  Like in JS,
`"".split(',') = [""]` — the result is never empty. -/
def jsSplit (s : String) (sep : Char) : List String :=
  jsSplitGo sep s.data []

/-- JS `s.trim()`: strip whitespace from both ends. -/
def jsTrim (s : String) : String :=
  String.mk (((s.data.dropWhile Char.isWhitespace).reverse.dropWhile
    Char.isWhitespace).reverse)

/-- JS `s.toLowerCase()` (ASCII as used by the source's message heuristics). -/
def jsToLower (s : String) : String :=
  String.mk (s.data.map Char.toLower)

/-- Does `needle` occur at the head of `hay`? -/
def startsWithL : List Char → List Char → Bool
  | [], _ => true
  | _ :: _, [] => false
  | n :: ns, h :: hs => n == h && startsWithL ns hs

/-- Does `needle` occur anywhere in `hay`?  Models JS
`hay.indexOf(needle) !== -1`. -/
def occursIn (needle : List Char) : List Char → Bool
  | [] => needle.isEmpty
  | h :: hs => startsWithL needle (h :: hs) || occursIn needle hs

/-- JS `hay.indexOf(needle) !== -1` on strings. -/
def strContains (hay needle : String) : Bool :=
  occursIn needle.data hay.data

/-! ## Version comparison (`UpdateAnalyzer.getUpdateLevel`, remote table
`compareVersions`)

JS `split('.')` yields an array; indexing past the end yields `undefined`,
modelled by `List.get?` returning `none`.  The comparisons are the raw JS
`!==` on the component strings (`undefined` is distinct from every string,
in particular from `"0"`). -/

/-- Model of `UpdateAnalyzer.getUpdateLevel(fromVersion, toVersion)`:
`var from = (fromVersion || '0.0.0').split('.')` and component-wise `!==`
on the first two components; everything else is `'patch'`. -/
def getUpdateLevel (fromVersion toVersion : String) : String :=
  let fromC := jsSplit (if fromVersion = "" then "0.0.0" else fromVersion) '.'
  let toC := jsSplit (if toVersion = "" then "0.0.0" else toVersion) '.'
  if fromC.get? 0 ≠ toC.get? 0 then "major"
  else if fromC.get? 1 ≠ toC.get? 1 then "minor"
  else "patch"

/-- Model of `compareVersions(currentVer, availableVer)` from the Available Updates
remote table script: component-wise `!==` on the first three components;
`'none'` when none of the three differ. -/
def compareVersions (currentVer availableVer : String) : String :=
  let cur := jsSplit currentVer '.'
  let avail := jsSplit availableVer '.'
  if cur.get? 0 ≠ avail.get? 0 then "major"
  else if cur.get? 1 ≠ avail.get? 1 then "minor"
  else if cur.get? 2 ≠ avail.get? 2 then "patch"
  else "none"

/-- The remote table row loop runs `if (diff === 'none') continue;`:
a version pair is included in the results exactly when `compareVersions`
is not `'none'`. -/
def includedInResults (currentVer availableVer : String) : Bool :=
  compareVersions currentVer availableVer ≠ "none"

/-! ## Activity Log (`ActivityLogger` script include)

The script include keeps a per-instance mutable `_sequenceCounter`, set to 0
by the constructor and incremented by each `log` call.  The instance is
modelled as a one-field structure threaded through the calls; a fresh
instance carries counter 0. -/

/-- One `x_snc_update_center_activity_log` record as inserted by
`ActivityLogger.log`. -/
structure LogEntry where
  batchRequest : String
  batchItem : Option String
  activityType : String
  phase : String
  message : String
  sequence : Nat
  details : Option String
  applicationName : Option String
  progressPercent : Option Int
  deriving Repr, DecidableEq

/-- The optional third argument of `ActivityLogger.log`. -/
structure LogOptions where
  details : Option String := none
  applicationName : Option String := none
  progressPercent : Option Int := none
  deriving Repr, DecidableEq

/-- The `ActivityLogger` instance state: its `_sequenceCounter`.
A fresh instance (the constructor) has counter 0. -/
structure ActivityLogger where
  sequenceCounter : Nat
  deriving Repr, DecidableEq

/-- Model of `ActivityLogger.log`: bump the instance counter, build the record.
JS stores `details`/`applicationName` only when truthy (non-empty), and
`progress_percent` whenever it is not `undefined`. -/
def ActivityLogger.log (logger : ActivityLogger) (batchRequestId : String)
    (batchItemId : Option String) (activityType phase message : String)
    (options : LogOptions) : ActivityLogger × LogEntry :=
  let counter := logger.sequenceCounter + 1
  (⟨counter⟩,
    { batchRequest := batchRequestId
      batchItem := batchItemId
      activityType := activityType
      phase := phase
      message := message
      sequence := counter
      details := match options.details with
        | some d => if d = "" then none else some d
        | none => none
      applicationName := match options.applicationName with
        | some a => if a = "" then none else some a
        | none => none
      progressPercent := options.progressPercent })

/-- Model of `ActivityLogger.logAppInstallComplete`. -/
def ActivityLogger.logAppInstallComplete (logger : ActivityLogger)
    (batchRequestId : String) (batchItemId : Option String) (appName toVersion : String)
    (durationMs : Nat) : ActivityLogger × LogEntry :=
  let durSec := (durationMs + 500) / 1000
  logger.log batchRequestId batchItemId "success" "installation"
    (appName ++ " updated to " ++ toVersion ++ " (" ++ toString durSec ++ "s)")
    { applicationName := some appName, progressPercent := some 100 }

/-- Model of `ActivityLogger.logAppInstallFailed`. -/
def ActivityLogger.logAppInstallFailed (logger : ActivityLogger)
    (batchRequestId : String) (batchItemId : Option String)
    (appName errorMessage : String) : ActivityLogger × LogEntry :=
  logger.log batchRequestId batchItemId "error" "installation"
    ("Failed to install " ++ appName ++ ": " ++ errorMessage)
    { applicationName := some appName, details := some errorMessage }

/-- Model of `ActivityLogger._formatDuration`. -/
def formatDuration (seconds : Nat) : String :=
  if seconds < 60 then toString seconds ++ "s"
  else
    let min := seconds / 60
    let sec := seconds % 60
    if min < 60 then toString min ++ "m " ++ toString sec ++ "s"
    else toString (min / 60) ++ "h " ++ toString (min % 60) ++ "m"

/-- The summary object passed to `ActivityLogger.logBatchComplete`. -/
structure BatchSummary where
  completed : Nat
  failed : Nat
  skipped : Nat
  total : Nat
  durationSeconds : Nat
  deriving Repr, DecidableEq

/-- Model of `JSON.stringify` of the batch summary (insertion key order). -/
def summaryJson (s : BatchSummary) : String :=
  "\x7b\"completed\":" ++ toString s.completed ++
  ",\"failed\":" ++ toString s.failed ++
  ",\"skipped\":" ++ toString s.skipped ++
  ",\"total\":" ++ toString s.total ++
  ",\"durationSeconds\":" ++ toString s.durationSeconds ++ "\x7d"

/-- Model of `ActivityLogger.logBatchComplete`. -/
def ActivityLogger.logBatchComplete (logger : ActivityLogger)
    (batchRequestId : String) (summary : BatchSummary) : ActivityLogger × LogEntry :=
  let msg := "Batch installation complete. " ++ toString summary.completed ++
    " succeeded, " ++ toString summary.failed ++ " failed, " ++
    toString summary.skipped ++ " skipped. " ++
    "Total time: " ++ formatDuration summary.durationSeconds
  let actType := if summary.failed > 0 then "warning" else "complete"
  logger.log batchRequestId none actType "cleanup" msg
    { progressPercent := some 100, details := some (summaryJson summary) }

/-! ## Data model (`batch_request`, `batch_item`, manifest) -/

/-- One package of the CI/CD manifest built by
`BatchUpdateManager._buildManifest` (the JSON `type` field is `typeName`). -/
structure ManifestPkg where
  id : String
  typeName : String
  loadDemoData : Bool
  requestedVersion : String
  notes : String
  deriving Repr, DecidableEq

/-- One `x_snc_update_center_batch_request` record.  Timestamps are
milliseconds since an arbitrary origin; unset date fields are `none`;
unset string fields are `""` (GlideRecord empty value). -/
structure BatchRequest where
  requestedBy : String
  totalApps : Nat
  state : String
  scheduledStart : Option String
  installNotes : String
  completedApps : Nat
  failedApps : Nat
  skippedApps : Nat
  overallProgress : Nat
  actualStart : Option Nat
  actualEnd : Option Nat
  durationSeconds : Nat
  errorSummary : String
  batchManifest : List ManifestPkg
  progressWorker : String
  deriving Repr, DecidableEq

/-- One `x_snc_update_center_batch_item` record.  The store keeps items of a
batch in `install_order`; item lists in this model are maintained in that
order, matching every `orderBy('install_order')` query in the source. -/
structure BatchItem where
  id : String
  batchRequest : String
  application : String
  applicationName : String
  appVersion : String
  fromVersion : String
  toVersion : String
  updateLevel : String
  state : String
  installOrder : Nat
  progressPercent : Int
  statusMessage : String
  errorMessage : String
  startTime : Option Nat
  endTime : Option Nat
  durationSeconds : Nat
  deriving Repr, DecidableEq

/-- Model of `Math.round(ms / 1000)` for the `GlideDateTime.subtract` durations. -/
def roundDiv1000 (ms : Nat) : Nat := (ms + 500) / 1000

/-! ## `BatchUpdateManager.createBatchRequest` -/

/-- A `sys_app_version` record (the fields the manager reads). -/
structure VersionRec where
  version : String
  sourceAppId : String
  deriving Repr, DecidableEq

/-- A `sys_store_app` record (the fields the manager reads). -/
structure StoreApp where
  version : String
  displayValue : String
  deriving Repr, DecidableEq

/-- External lookups used while creating a batch:
`sys_app_version` by sys_id, `sys_store_app` by sys_id, the session user. -/
structure CreateEnv where
  appVersion : String → Option VersionRec
  storeApp : String → Option StoreApp
  userId : String

/-- The `options` argument of `createBatchRequest`. -/
structure CreateOptions where
  scheduledStart : Option String := none
  notes : Option String := none

/-- Return value of `createBatchRequest`. -/
structure CreateResult where
  success : Bool
  message : String
  batchRequestId : Option String
  totalApps : Option Nat
  deriving Repr, DecidableEq

/-- Records produced by a `createBatchRequest` call: the inserted Batch
Request (if any), its Batch Items, and the Activity Log entries written. -/
structure CreatedState where
  batch : Option BatchRequest
  items : List BatchItem
  logs : List LogEntry
  deriving Repr, DecidableEq

/-- Model of `BatchUpdateManager._createBatchItems`: walk the split sys_ids keeping
the `order` counter (start 100, step 100, bumped only when an item is
inserted); skip blank entries and entries with no `sys_app_version` record.
A missing `sys_store_app` record leaves the app fields empty (GlideRecord
reads on a record that failed to load yield empty values) but the item is
still inserted. -/
def createBatchItemsGo (env : CreateEnv) (batchRequestId : String) :
    List String → Nat → List BatchItem
  | [], _ => []
  | raw :: rest, order =>
    let sysId := jsTrim raw
    if sysId = "" then createBatchItemsGo env batchRequestId rest order
    else
      match env.appVersion sysId with
      | none => createBatchItemsGo env batchRequestId rest order
      | some verRec =>
        let appId := verRec.sourceAppId
        let appVer := ((env.storeApp appId).map (·.version)).getD ""
        let appName := ((env.storeApp appId).map (·.displayValue)).getD ""
        { id := "item_" ++ toString order
          batchRequest := batchRequestId
          application := appId
          applicationName := appName
          appVersion := sysId
          fromVersion := appVer
          toVersion := verRec.version
          updateLevel := getUpdateLevel appVer verRec.version
          state := "queued"
          installOrder := order
          progressPercent := 0
          statusMessage := ""
          errorMessage := ""
          startTime := none
          endTime := none
          durationSeconds := 0 } :: createBatchItemsGo env batchRequestId rest (order + 100)

/-- Model of `BatchUpdateManager._createBatchItems` (initial order 100). -/
def createBatchItems (env : CreateEnv) (batchRequestId : String)
    (sysIds : List String) : List BatchItem :=
  createBatchItemsGo env batchRequestId sysIds 100

/-- Model of `BatchUpdateManager._buildManifest` over the items in install order. -/
def buildManifest (items : List BatchItem) : List ManifestPkg :=
  items.map fun it =>
    { id := it.application
      typeName := "application"
      loadDemoData := false
      requestedVersion := it.toVersion
      notes := it.applicationName ++ " " ++ it.fromVersion ++ " → " ++ it.toVersion }

/-- Model of `BatchUpdateManager.createBatchRequest`.  Record insertion is modelled as
always succeeding (the JS guard on a failed insert is an infrastructure
failure outside this model); the manager's fresh `ActivityLogger` starts at
counter 0. -/
def createBatchRequest (env : CreateEnv) (appVersionSysIds : String)
    (options : CreateOptions) : CreateResult × CreatedState :=
  let sysIds := jsSplit appVersionSysIds ','
  if sysIds.length = 0 then
    ({ success := false, message := "No applications selected",
       batchRequestId := none, totalApps := none },
     { batch := none, items := [], logs := [] })
  else
    let batchId := "batch_1"
    let batch0 : BatchRequest :=
      { requestedBy := env.userId
        totalApps := sysIds.length
        state := if options.scheduledStart.isSome then "scheduled" else "draft"
        scheduledStart := options.scheduledStart
        installNotes := options.notes.getD ""
        completedApps := 0, failedApps := 0, skippedApps := 0
        overallProgress := 0
        actualStart := none, actualEnd := none, durationSeconds := 0
        errorSummary := "", batchManifest := [], progressWorker := "" }
    let logger : ActivityLogger := ⟨0⟩
    let (logger1, e1) := logger.log batchId none "start" "preparation"
      ("Batch request created with " ++ toString sysIds.length ++ " application(s)") {}
    let items := createBatchItems env batchId sysIds
    let manifest := buildManifest items
    let batch1 := { batch0 with batchManifest := manifest }
    let (_, e2) := logger1.log batchId none "info" "preparation"
      ("Batch manifest built with " ++ toString manifest.length ++ " package(s)") {}
    ({ success := true, message := "Batch request created successfully",
       batchRequestId := some batchId, totalApps := some sysIds.length },
     { batch := some batch1, items := items, logs := [e1, e2] })

/-! ## `BatchUpdateManager.executeBatchInstall` / `cancelBatchInstall` -/

/-- Environment of an `executeBatchInstall` call: the wall clock and the
outcome of the CI/CD subflow submission — `Except.ok (progressId,
statusMessage)` on success, `Except.error msg` when the subflow run throws. -/
structure ExecEnv where
  now : Nat
  submit : Except String (String × String)

/-- Return value of `executeBatchInstall` / `cancelBatchInstall`. -/
structure OpResult where
  success : Bool
  message : String
  progressWorkerId : Option String
  deriving Repr, DecidableEq

/-- Model of `BatchUpdateManager._markAllItemsInstalling`: every `queued` item becomes
`installing` with a start timestamp. -/
def markAllItemsInstalling (items : List BatchItem) (now : Nat) : List BatchItem :=
  items.map fun it =>
    if it.state = "queued" then { it with state := "installing", startTime := some now }
    else it

/-- Model of `BatchUpdateManager._updateQueuedItemsState`: every `queued` or
`installing` item gets `newState`. -/
def updateQueuedItemsState (items : List BatchItem) (newState : String) :
    List BatchItem :=
  items.map fun it =>
    if it.state = "queued" ∨ it.state = "installing" then { it with state := newState }
    else it

/-- Model of `BatchUpdateManager.executeBatchInstall` on the batch record (`none` when
the sys_id does not resolve), its items, and the submission outcome.  Returns
the call result together with the updated record, items, and the Activity Log
entries written by the manager's fresh logger instance. -/
def executeBatchInstall (batchRequestId : String) (store : Option BatchRequest)
    (items : List BatchItem) (env : ExecEnv) :
    OpResult × Option BatchRequest × List BatchItem × List LogEntry :=
  match store with
  | none =>
    ({ success := false, message := "Batch request not found", progressWorkerId := none },
     none, items, [])
  | some batchGr =>
    if batchGr.state = "in_progress" then
      ({ success := false, message := "Batch is already running", progressWorkerId := none },
       some batchGr, items, [])
    else
      let b1 := { batchGr with state := "in_progress", actualStart := some env.now }
      let logger : ActivityLogger := ⟨0⟩
      let (logger1, e1) := logger.log batchRequestId none "start" "installation"
        "Batch installation started" {}
      let items1 := markAllItemsInstalling items env.now
      match env.submit with
      | Except.ok (progressId, statusMessage) =>
        let b2 := { b1 with progressWorker := progressId }
        let (_, e2) := logger1.log batchRequestId none "info" "installation"
          ("CI/CD Batch Install triggered. Progress worker: " ++ progressId) {}
        ({ success := true,
           message := if statusMessage = "" then "Installation started" else statusMessage,
           progressWorkerId := some progressId },
         some b2, items1, [e1, e2])
      | Except.error errorMsg =>
        let b2 := { b1 with
          state := "failed"
          errorSummary := errorMsg
          actualEnd := some env.now }
        let (_, e2) := logger1.log batchRequestId none "error" "installation"
          ("Batch installation failed: " ++ errorMsg) {}
        ({ success := false, message := errorMsg, progressWorkerId := none },
         some b2, items1, [e1, e2])

/-- Model of `BatchUpdateManager.cancelBatchInstall`: no state guard — the record (if
found) is set to `cancelled` with `actual_end` stamped, queued/installing
items are skipped, a warning is logged. -/
def cancelBatchInstall (batchRequestId : String) (store : Option BatchRequest)
    (items : List BatchItem) (userDisplayName : String) (now : Nat) :
    OpResult × Option BatchRequest × List BatchItem × List LogEntry :=
  match store with
  | none =>
    ({ success := false, message := "Batch request not found", progressWorkerId := none },
     none, items, [])
  | some batchGr =>
    let b1 := { batchGr with state := "cancelled", actualEnd := some now }
    let items1 := updateQueuedItemsState items "skipped"
    let logger : ActivityLogger := ⟨0⟩
    let (_, e1) := logger.log batchRequestId none "warning" "installation"
      ("Batch installation cancelled by " ++ userDisplayName) {}
    ({ success := true, message := "Batch installation cancelled", progressWorkerId := none },
     some b1, items1, [e1])

/-! ## Progress Reconciler (the "Monitor Batch Progress" flow script) -/

/-- The constant `MAX_POLL_TIME_MS = 7200000` (2 hours). -/
def MAX_POLL_TIME_MS : Nat := 7200000

/-- A point-in-time read of the `sys_progress_worker` record. -/
structure Worker where
  state : String
  message : String
  percentComplete : Nat
  errorMessage : String
  outputSummary : String
  deriving Repr, DecidableEq

/-- One iteration of the polling loop as seen from outside: the elapsed
milliseconds since the monitor started, the wall clock, and the worker read
(`none` when `pw.get(progressWorkerId)` fails). -/
structure Obs where
  elapsed : Nat
  now : Nat
  worker : Option Worker
  deriving Repr, DecidableEq

/-- The monitor's loop state: the stored batch record and items, the
script's `ActivityLogger` instance and the entries written so far, the
`lastMessage` / `lastPercent` / `pollCount` locals, the successive values
persisted into `overall_progress` by `_updateBatchProgress` (observation
trace for the milestone property), and the flow outputs once the batch is
finalized. -/
structure MonState where
  batch : Option BatchRequest
  items : List BatchItem
  logger : ActivityLogger
  logs : List LogEntry
  lastMessage : String
  lastPercent : Int
  pollCount : Nat
  progressWrites : List Nat
  outputs : Option (String × String)

/-- The message-classification heuristic of the monitor loop (substring
matches on the lower-cased worker message). -/
def classifyMessage (message : String) : String :=
  let lower := jsToLower message
  if strContains lower "error" || strContains lower "fail" then "error"
  else if strContains lower "complete" || strContains lower "success" then "success"
  else if strContains lower "install" then "info"
  else "progress"

/-- Model of `_updateBatchProgress`: write `overall_progress` when the record loads. -/
def updateBatchProgress (batch : Option BatchRequest) (percent : Nat) :
    Option BatchRequest :=
  batch.map fun gr => { gr with overallProgress := percent }

/-- The completed-item write of `_parseAndUpdateItems` for items whose
order-index is below the estimated current index. -/
def heuristicComplete (it : BatchItem) (now : Nat) : BatchItem :=
  { it with
    state := "completed"
    progressPercent := 100
    endTime := some now
    statusMessage := "Installed successfully"
    durationSeconds := roundDiv1000 (now - it.startTime.getD 0) }

/-- The interpolated sub-progress of the item at the estimated index.  The
JS float expression `((p - (itemIndex/total*100)) / (100/total)) * 100`
equals `p*total - 100*itemIndex` exactly over the rationals, and for the
magnitudes involved (`p ≤ 100`, small `total`) `Math.round` returns exactly
that integer; the `Math.max(0, Math.min(100, …))` clamp is kept. -/
def itemSubPercent (overallPercent totalItems itemIndex : Nat) : Int :=
  max 0 (min 100 ((overallPercent * totalItems : Int) - 100 * itemIndex))

/-- The second query loop of `_parseAndUpdateItems`: walk the items in
install order, counting only `installing` ones with `idx`; items below
`itemIndex` are completed, the item at `itemIndex` gets sub-progress and the
latest message, later ones are untouched. -/
def updateInstallingItems (now : Nat) (message : String) (overallPercent : Nat)
    (itemIndex totalItems : Nat) : List BatchItem → Nat → List BatchItem
  | [], _ => []
  | it :: rest, idx =>
    if it.state = "installing" then
      let it' :=
        if idx < itemIndex then heuristicComplete it now
        else if idx = itemIndex then
          { it with
            progressPercent := itemSubPercent overallPercent totalItems itemIndex
            statusMessage := message }
        else it
      it' :: updateInstallingItems now message overallPercent itemIndex totalItems rest (idx + 1)
    else it :: updateInstallingItems now message overallPercent itemIndex totalItems rest idx

/-- Model of `_parseAndUpdateItems`: estimate which item the sequential installer is
on (`itemIndex = floor(percent/100 * totalInstalling)`) and update the
installing items. -/
def parseAndUpdateItems (items : List BatchItem) (message : String)
    (overallPercent : Nat) (now : Nat) : List BatchItem :=
  let totalItems := (items.filter fun it => it.state = "installing").length
  if totalItems > 0 then
    let itemIndex := overallPercent * totalItems / 100
    updateInstallingItems now message overallPercent itemIndex totalItems items 0
  else items

/-- The per-item body of `_syncFinalItemStates`: compare the inventory's
currently-installed version (`sys_store_app.version`; `none` when the app
record does not load) against the item's `to_version`. -/
def syncItem (inventory : String → Option String) (now : Nat)
    (batchRequestId : String) (ctx : ActivityLogger × List LogEntry)
    (it : BatchItem) : BatchItem × (ActivityLogger × List LogEntry) :=
  match inventory it.application with
  | none => (it, ctx)
  | some currentVersion =>
    let targetVersion := it.toVersion
    if currentVersion = targetVersion then
      if it.state ≠ "completed" then
        let it' := { it with
          state := "completed"
          progressPercent := 100
          statusMessage := "Installed successfully"
          endTime := some (it.endTime.getD now) }
        let (lg, e) := ctx.1.logAppInstallComplete batchRequestId (some it.id)
          it.applicationName targetVersion 0
        (it', (lg, ctx.2 ++ [e]))
      else (it, ctx)
    else if it.state = "installing" then
      let it' := { it with
        state := "failed"
        errorMessage := "Version mismatch after install. Expected " ++ targetVersion ++
          ", found " ++ currentVersion
        endTime := some now }
      let (lg, e) := ctx.1.logAppInstallFailed batchRequestId (some it.id)
        it.applicationName ("Version not updated to " ++ targetVersion)
      (it', (lg, ctx.2 ++ [e]))
    else (it, ctx)

/-- Model of `_syncFinalItemStates` over the whole item list. -/
def syncFinalItemStates (inventory : String → Option String) (now : Nat)
    (batchRequestId : String) : List BatchItem → (ActivityLogger × List LogEntry) →
    List BatchItem × (ActivityLogger × List LogEntry)
  | [], ctx => ([], ctx)
  | it :: rest, ctx =>
    let (it', ctx') := syncItem inventory now batchRequestId ctx it
    let (rest', ctx'') := syncFinalItemStates inventory now batchRequestId rest ctx'
    (it' :: rest', ctx'')

/-- Model of `_finalizeBatch`: count item states, compute the final batch state
(`partial` when completed and failed items coexist), write the batch record
(when it loads), log the aggregate completion entry, produce the flow
outputs `(final_state, summary)`. -/
def finalizeBatch (batchRequestId : String) (stateArg message : String)
    (now elapsedMs : Nat) (batch : Option BatchRequest) (items : List BatchItem)
    (ctx : ActivityLogger × List LogEntry) :
    Option BatchRequest × (ActivityLogger × List LogEntry) × (String × String) :=
  let countCompleted := (items.filter fun it => it.state = "completed").length
  let countFailed := (items.filter fun it => it.state = "failed").length
  let countSkipped := (items.filter fun it => it.state = "skipped").length
  let finalState := if countFailed > 0 ∧ countCompleted > 0 then "partial" else stateArg
  let batch' := batch.map fun gr =>
    let gr1 := { gr with
      state := finalState
      completedApps := countCompleted
      failedApps := countFailed
      skippedApps := countSkipped
      overallProgress := 100
      actualEnd := some now
      durationSeconds := roundDiv1000 (now - gr.actualStart.getD 0) }
    if countFailed > 0 then
      { gr1 with errorSummary := toString countFailed ++ " app(s) failed to install" }
    else gr1
  let (lg, e) := ctx.1.logBatchComplete batchRequestId
    { completed := countCompleted, failed := countFailed, skipped := countSkipped,
      total := countCompleted + countFailed + countSkipped,
      durationSeconds := roundDiv1000 elapsedMs }
  (batch', (lg, ctx.2 ++ [e]), (finalState, message))

/-- Static configuration of a monitor run. -/
structure MonCfg where
  batchRequestId : String
  progressWorkerId : String
  inventory : String → Option String

/-- Apply `_finalizeBatch` to the loop state and record the flow outputs. -/
def finalizeInto (cfg : MonCfg) (st : MonState) (stateArg message : String)
    (o : Obs) : MonState :=
  let r := finalizeBatch cfg.batchRequestId stateArg message
    o.now o.elapsed st.batch st.items (st.logger, st.logs)
  { st with batch := r.1, logger := r.2.1.1, logs := r.2.1.2, outputs := some r.2.2 }

/-- The polling loop of the monitor script, driven by the finite trace of
observations.  An exhausted trace returns the current state with no outputs
(the real loop would keep polling).  Each iteration follows the source:
bump `pollCount`; timeout check; worker-not-found retry/give-up; message
change (classify, log, re-estimate items); 10%-milestone persistence;
terminal detection (error log, ground-truth sync, finalization). -/
def runMonitor (cfg : MonCfg) : List Obs → MonState → MonState
  | [], st => st
  | o :: rest, st₀ =>
    let st := { st₀ with pollCount := st₀.pollCount + 1 }
    if o.elapsed > MAX_POLL_TIME_MS then
      let (lg, e) := st.logger.log cfg.batchRequestId none "warning" "installation"
        "Progress monitor timed out after 2 hours" {}
      finalizeInto cfg { st with logger := lg, logs := st.logs ++ [e] }
        "failed" "Monitor timeout" o
    else
      match o.worker with
      | none =>
        if st.pollCount > 20 then
          let (lg, e) := st.logger.log cfg.batchRequestId none "error" "installation"
            "Progress worker not found after extended polling" {}
          finalizeInto cfg { st with logger := lg, logs := st.logs ++ [e] }
            "failed" "Progress worker not found" o
        else runMonitor cfg rest st
      | some pw =>
        let message := pw.message
        let percent := pw.percentComplete
        let st1 :=
          if message ≠ st.lastMessage then
            let actType := classifyMessage message
            let (lg, e) := st.logger.log cfg.batchRequestId none actType "installation"
              message { progressPercent := some percent, details := some pw.outputSummary }
            { st with
              logger := lg
              logs := st.logs ++ [e]
              lastMessage := message
              items := parseAndUpdateItems st.items message percent o.now }
          else st
        let st2 :=
          if (percent : Int) ≠ st1.lastPercent ∧ percent % 10 = 0 ∧ percent > 0 then
            { st1 with
              batch := updateBatchProgress st1.batch percent
              progressWrites := st1.progressWrites ++
                (if st1.batch.isSome then [percent] else [])
              lastPercent := (percent : Int) }
          else st1
        if pw.state = "complete" ∨ pw.state = "cancelled" ∨ pw.state = "error" then
          let finalState := if pw.state = "complete" then "completed" else "failed"
          let st3 :=
            if pw.errorMessage ≠ "" then
              let (lg, e) := st2.logger.log cfg.batchRequestId none "error" "post_install"
                ("Installation error: " ++ pw.errorMessage) {}
              { st2 with logger := lg, logs := st2.logs ++ [e] }
            else st2
          let r := syncFinalItemStates cfg.inventory o.now cfg.batchRequestId
            st3.items (st3.logger, st3.logs)
          finalizeInto cfg { st3 with items := r.1, logger := r.2.1, logs := r.2.2 }
            finalState (if pw.outputSummary = "" then message else pw.outputSummary) o
        else runMonitor cfg rest st2

/-- Entry of the monitor script: fresh logger, the start entry, the local
variables' initial values, then the loop. -/
def monitorRun (cfg : MonCfg) (batch : Option BatchRequest)
    (items : List BatchItem) (obs : List Obs) : MonState :=
  let logger : ActivityLogger := ⟨0⟩
  let (lg, e) := logger.log cfg.batchRequestId none "info" "installation"
    ("Progress monitor started. Tracking worker: " ++ cfg.progressWorkerId) {}
  runMonitor cfg obs
    { batch := batch, items := items, logger := lg, logs := [e],
      lastMessage := "", lastPercent := -1, pollCount := 0,
      progressWrites := [], outputs := none }

/-! ## Dependency Analyzer (`UpdateAnalyzer._topologicalSort`)

The JS `visit` closure mutates three objects: `visited`, the `order` array,
and the `conflicts` array; the `visiting` object is set on entry and cleared
on exit of each frame, so at any moment it holds exactly the ids on the
current recursion path — modelled by the explicit `path` parameter.  For
termination the model threads `remaining`, the ids not on the path; at every
reachable call it equals the candidate set minus the path (the final
`else` branch of `visitOne` is unreachable under that invariant). -/

/-- The three arrays mutated by `_topologicalSort`. -/
structure SortState where
  visited : List String
  order : List String
  conflicts : List String
  deriving Repr, DecidableEq

/-- The conflict message pushed on a cycle. -/
def cycleConflictMsg (id : String) : String :=
  "Circular dependency detected involving " ++ id

/-- Run the `visit` closure on each id of `ids` in turn, as the dependency
loop and the top-level loop do.  For a single id: a conflict if it is
`visiting` (on `path`), a no-op if `visited`, otherwise recurse into its
in-set dependencies with the id pushed on the path, then mark it visited and
append it to the order. -/
def visitMany (appIds : List String) (depMap : String → List String) :
    List String → List String → List String → SortState → SortState
  | _, [], _, s => s
  | remaining, id :: rest, path, s =>
    let s1 :=
      if id ∈ path then { s with conflicts := s.conflicts ++ [cycleConflictMsg id] }
      else if id ∈ s.visited then s
      else if h : id ∈ remaining then
        let s2 := visitMany appIds depMap (remaining.erase id)
          ((depMap id).filter (· ∈ appIds)) (id :: path) s
        { s2 with visited := id :: s2.visited, order := s2.order ++ [id] }
      else s
    visitMany appIds depMap remaining rest path s1
termination_by remaining ids _ _ => (remaining.length, ids.length)
decreasing_by
  · simp_wf
    left
    have hlen := List.length_erase_of_mem h
    have h0 : remaining.length ≠ 0 := by
      intro hz
      rw [List.length_eq_zero] at hz
      simp [hz] at h
    omega
  · simp_wf
    omega

/-- Model of `UpdateAnalyzer._topologicalSort(appIds, depMap)`: visit every candidate
starting from empty marker sets. -/
def topologicalSort (appIds : List String) (depMap : String → List String) :
    SortState :=
  visitMany appIds depMap appIds appIds [] ⟨[], [], []⟩

/-- The dependency graph restricted to the candidate set: `a` depends on
`b` (so `b` must be installed first), both in the set. -/
def inSetDep (appIds : List String) (depMap : String → List String)
    (a b : String) : Prop :=
  a ∈ appIds ∧ b ∈ appIds ∧ b ∈ depMap a

/-! ## Specification-side helper definitions -/

/-- A sequence of `log` calls against one `ActivityLogger` instance (the
non-sequence arguments are irrelevant to the sequence numbers). -/
def logMany : ActivityLogger → String → List String → ActivityLogger × List LogEntry
  | lg, _, [] => (lg, [])
  | lg, b, m :: ms =>
    let (lg1, e) := lg.log b none "info" "installation" m {}
    let (lg2, es) := logMany lg1 b ms
    (lg2, e :: es)

/-- A raw split entry produces a Batch Item exactly when its trimmed value is
non-blank and resolves to a `sys_app_version` record. -/
def resolvable (env : CreateEnv) (raw : String) : Bool :=
  jsTrim raw ≠ "" && (env.appVersion (jsTrim raw)).isSome

/-- The worker `percent_complete` values a trace offers to the loop, in
order. -/
def percentsOf (obs : List Obs) : List Nat :=
  obs.filterMap fun o => o.worker.map (·.percentComplete)

/-- Element `d` occurs strictly before `a` in `l`. -/
def Before (l : List String) (d a : String) : Prop :=
  ∃ l1 l2, l = l1 ++ l2 ∧ d ∈ l1 ∧ a ∈ l2 ∧ a ∉ l1

/-- An order is topologically sorted for the in-set dependency graph:
every element comes after each of its in-set dependencies. -/
def SortedOrder (appIds : List String) (depMap : String → List String)
    (order : List String) : Prop :=
  ∀ a ∈ order, ∀ d ∈ depMap a, d ∈ appIds → Before order d a

/-- Well-formedness of the sort state: the order has no duplicates, the
`visited` markers coincide with the order's members, and the order stays
inside the candidate set. -/
def SortInv (appIds : List String) (s : SortState) : Prop :=
  s.order.Nodup ∧ (∀ x, x ∈ s.visited ↔ x ∈ s.order) ∧ ∀ x ∈ s.order, x ∈ appIds
/-! # Theorems -/

/-! ## C6 — update-level classification -/

/-- C6 counterexample: the claim treats missing version components as 0, so
`"1.2"` vs `"1.2.0"` would be identical and excluded; the code compares the
raw component strings (`undefined !== "0"`), classifies the pair as `patch`
and keeps it in the results. -/
theorem compareVersions_missing_component_not_zero :
    compareVersions "1.2" "1.2.0" = "patch" ∧
    includedInResults "1.2" "1.2.0" = true ∧
    getUpdateLevel "1.2" "1.2.0" = "patch" := by
  decide

/-- C6 theorem (amended): classification compares the dotted components as
raw strings, left to right over the first three; a missing component is
`undefined` and differs from every string including `"0"` (so `"1.2"` vs
`"1.2.0"` is `patch`, not "no update"); identical strings classify `none`
and are excluded from the remote-table results; the four concrete examples
of the spec hold. -/
theorem version_classification_spec :
    (∀ v : String, compareVersions v v = "none" ∧ includedInResults v v = false) ∧
    compareVersions "1.2.3" "1.2.4" = "patch" ∧
    compareVersions "1.2.3" "1.3.0" = "minor" ∧
    compareVersions "1.2.3" "2.0.0" = "major" ∧
    getUpdateLevel "1.2.3" "1.2.4" = "patch" ∧
    getUpdateLevel "1.2.3" "1.3.0" = "minor" ∧
    getUpdateLevel "1.2.3" "2.0.0" = "major" ∧
    includedInResults "1.2.3" "1.2.4" = true ∧
    compareVersions "1.2" "1.2.0" = "patch" := by
  refine ⟨fun v => ?_, ?_, ?_, ?_, ?_, ?_, ?_, ?_, ?_⟩ <;>
    first
      | decide
      | simp [compareVersions, includedInResults]

/-! ### C5 helper lemmas -/

theorem logMany_sequences (b : String) :
    ∀ (msgs : List String) (lg : ActivityLogger),
      (logMany lg b msgs).2.map (·.sequence) =
        List.range' (lg.sequenceCounter + 1) msgs.length := by
  intro msgs
  induction msgs with
  | nil => intro lg; simp [logMany]
  | cons m ms ih =>
    intro lg
    have h2 := ih ⟨lg.sequenceCounter + 1⟩
    simp only [logMany, ActivityLogger.log, List.map_cons, List.length_cons, List.range', h2]


theorem range'_pairwise_lt : ∀ (n s : Nat), (List.range' s n).Pairwise (· < ·) := by
  intro n
  induction n with
  | zero => intro s; simp
  | succ k ih =>
    intro s
    rw [List.range']
    refine List.Pairwise.cons ?_ (ih (s + 1))
    intro x hx
    have := List.mem_range'.1 hx
    omega

theorem range'_chain_succ : ∀ (n s : Nat), (List.range' s n).Chain' (fun x y => y = x + 1) := by
  intro n
  induction n with
  | zero => intro s; simp
  | succ k ih =>
    intro s
    rw [List.range']
    cases k with
    | zero => simp
    | succ k' =>
      have h2 := ih (s + 1)
      rw [List.range'] at h2
      rw [List.range']
      exact List.Chain'.cons rfl h2

/-! ## C5 — activity log sequence numbers -/

/-- C5 counterexample: `createBatchRequest` writes sequences 1 and 2 through
the Orchestrator's fresh `ActivityLogger` instance; the monitor flow script
then instantiates its own fresh logger and writes sequence 1 for the same
batch — the combined per-batch sequence list `[1, 2, 1]` is neither strictly
increasing nor duplicate-free. -/
theorem activity_log_sequences_duplicate_across_writers :
    let env : CreateEnv :=
      { appVersion := fun _ => some ⟨"1.0.1", "app1"⟩,
        storeApp := fun _ => some ⟨"1.0.0", "App One"⟩, userId := "u" }
    let created := (createBatchRequest env "ver1" {}).2
    let cfg : MonCfg :=
      { batchRequestId := "batch_1", progressWorkerId := "pw1",
        inventory := fun _ => none }
    let mon := monitorRun cfg created.batch created.items []
    created.logs.map (·.sequence) = [1, 2] ∧
    mon.logs.map (·.sequence) = [1] ∧
    ((created.logs ++ mon.logs).map (·.batchRequest)).all (· = "batch_1") = true ∧
    ¬ (((created.logs ++ mon.logs).map (·.sequence)).Pairwise (· < ·)) ∧
    ¬ (((created.logs ++ mon.logs).map (·.sequence)).Nodup) := by
  decide

/-- C5 theorem (amended): the `sequence` numbers are a per-instance counter
of the `ActivityLogger` script include: the entries written through one
instance carry the consecutive values counter+1, counter+2, … — strictly
increasing, gap-free and duplicate-free among that instance's entries (from
a fresh instance: 1, 2, …).  Distinct writer instances for the same batch
restart from 1, so the cross-writer guarantee of the claim fails. -/
theorem activity_log_sequences_per_instance (b : String) (msgs : List String)
    (lg : ActivityLogger) :
    (logMany lg b msgs).2.map (·.sequence) =
      List.range' (lg.sequenceCounter + 1) msgs.length ∧
    (logMany ⟨0⟩ b msgs).2.map (·.sequence) = List.range' 1 msgs.length ∧
    ((logMany lg b msgs).2.map (·.sequence)).Pairwise (· < ·) ∧
    ((logMany lg b msgs).2.map (·.sequence)).Chain' (fun x y => y = x + 1) := by
  refine ⟨logMany_sequences b msgs lg, logMany_sequences b msgs ⟨0⟩, ?_, ?_⟩
  · rw [logMany_sequences b msgs lg]
    exact range'_pairwise_lt msgs.length (lg.sequenceCounter + 1)
  · rw [logMany_sequences b msgs lg]
    exact range'_chain_succ msgs.length (lg.sequenceCounter + 1)

/-! ## C2 — lifecycle state guards -/

/-- C2 counterexample: `executeBatchInstall` rejects only the state
`in_progress`, so a batch already terminal in `completed` is restarted: the
call succeeds and the record moves back to `in_progress`; and
`cancelBatchInstall` checks no state at all, overwriting the terminal state
`failed` with `cancelled`. -/
theorem terminal_state_not_preserved :
    let b : BatchRequest :=
      { requestedBy := "u", totalApps := 1, state := "completed",
        scheduledStart := none, installNotes := "", completedApps := 1,
        failedApps := 0, skippedApps := 0, overallProgress := 100,
        actualStart := some 0, actualEnd := some 1000, durationSeconds := 1,
        errorSummary := "", batchManifest := [], progressWorker := "" }
    let r := executeBatchInstall "b1" (some b) []
      { now := 5000, submit := Except.ok ("pw1", "") }
    let c := cancelBatchInstall "b1" (some { b with state := "failed" }) [] "Admin" 6000
    r.1.success = true ∧
    r.2.1.map (·.state) = some "in_progress" ∧
    c.1.success = true ∧
    c.2.1.map (·.state) = some "cancelled" := by
  decide

/-- C2 theorem (amended): the only transition guard is on `in_progress`:
`executeBatchInstall` fails (batch unchanged) exactly when the current state
is `in_progress`; from any other state — `draft` and `scheduled`, but also
the terminal states — it moves the batch to `in_progress` on successful
submission and to `failed` (with the error as `error_summary`) when the
submission throws; `cancelBatchInstall` performs no state check and sets any
found record to `cancelled`, stamping `actual_end`. -/
theorem batch_state_guards (batchRequestId : String) (b : BatchRequest)
    (items : List BatchItem) (env : ExecEnv) (user : String) (now : Nat) :
    (b.state = "in_progress" →
      (executeBatchInstall batchRequestId (some b) items env).1.success = false ∧
      (executeBatchInstall batchRequestId (some b) items env).1.message =
        "Batch is already running" ∧
      (executeBatchInstall batchRequestId (some b) items env).2.1 = some b) ∧
    (b.state ≠ "in_progress" →
      (∀ pid smsg, env.submit = Except.ok (pid, smsg) →
        (executeBatchInstall batchRequestId (some b) items env).1.success = true ∧
        (executeBatchInstall batchRequestId (some b) items env).2.1.map (·.state) =
          some "in_progress") ∧
      (∀ msg, env.submit = Except.error msg →
        (executeBatchInstall batchRequestId (some b) items env).2.1.map (·.state) =
          some "failed" ∧
        (executeBatchInstall batchRequestId (some b) items env).2.1.map (·.errorSummary) =
          some msg)) ∧
    (cancelBatchInstall batchRequestId (some b) items user now).2.1 =
      some { b with state := "cancelled", actualEnd := some now } := by
  refine ⟨?_, ?_, ?_⟩
  · intro hb
    simp [executeBatchInstall, hb]
  · intro hb
    constructor
    · intro pid smsg hsub
      simp [executeBatchInstall, hb, hsub]
    · intro msg hsub
      simp [executeBatchInstall, hb, hsub]
  · simp [cancelBatchInstall]

/-- C2 witness: the amended guards evaluated concretely — a running batch is
rejected, a draft batch with a successful submission moves to `in_progress`,
and cancellation sets `cancelled`. -/
theorem batch_state_guards_witness :
    let bRun : BatchRequest :=
      { requestedBy := "u", totalApps := 1, state := "in_progress",
        scheduledStart := none, installNotes := "", completedApps := 0,
        failedApps := 0, skippedApps := 0, overallProgress := 0,
        actualStart := some 0, actualEnd := none, durationSeconds := 0,
        errorSummary := "", batchManifest := [], progressWorker := "" }
    let bDraft := { bRun with state := "draft" }
    let env : ExecEnv := { now := 10, submit := Except.ok ("pw", "started") }
    (executeBatchInstall "b1" (some bRun) [] env).1.success = false ∧
    (executeBatchInstall "b1" (some bDraft) [] env).2.1.map (·.state) =
      some "in_progress" ∧
    (cancelBatchInstall "b1" (some bDraft) [] "Admin" 20).2.1 =
      some { bDraft with state := "cancelled", actualEnd := some 20 } := by
  refine ⟨?_, ?_, ?_⟩
  · exact ((batch_state_guards "b1" _ [] _ "Admin" 20).1 rfl).1
  · exact (((batch_state_guards "b1" _ [] { now := 10, submit := Except.ok ("pw", "started") }
      "Admin" 20).2.1 (by decide)).1 "pw" "started" rfl).2
  · exact (batch_state_guards "b1" _ [] { now := 10, submit := Except.ok ("pw", "started") }
      "Admin" 20).2.2

/-! ## C9 / C10 — batch creation -/

/-- Splitting via `jsSplitGo` never returns the empty list. -/
theorem jsSplitGo_ne_nil (sep : Char) :
    ∀ (cs acc : List Char), jsSplitGo sep cs acc ≠ [] := by
  intro cs
  induction cs with
  | nil => intro acc; simp [jsSplitGo]
  | cons c rest ih =>
    intro acc
    by_cases hc : c = sep
    · simp [jsSplitGo, hc]
    · simpa [jsSplitGo, hc] using ih (c :: acc)

/-- JS `String.prototype.split` never yields an empty array. -/
theorem jsSplit_ne_nil (s : String) (sep : Char) : jsSplit s sep ≠ [] :=
  jsSplitGo_ne_nil sep s.data []

/-- The items created for a raw id list are exactly its resolvable entries. -/
theorem createBatchItemsGo_length (env : CreateEnv) (bid : String) :
    ∀ (raws : List String) (order : Nat),
      (createBatchItemsGo env bid raws order).length = raws.countP (resolvable env) := by
  intro raws
  induction raws with
  | nil => intro order; simp [createBatchItemsGo]
  | cons raw rest ih =>
    intro order
    by_cases hblank : jsTrim raw = ""
    · simp [createBatchItemsGo, hblank, List.countP_cons, resolvable, ih]
    · cases hv : env.appVersion (jsTrim raw) with
      | none =>
        simp [createBatchItemsGo, hblank, hv, List.countP_cons, resolvable, ih]
      | some verRec =>
        simp [createBatchItemsGo, hblank, hv, List.countP_cons, resolvable, ih]

/-- C9 theorem: the empty-candidate guard of `createBatchRequest` is dead
code — `''.split(',')` is `['']`, so the length-0 branch can never fire; on
the empty string the call succeeds, inserts a Batch Request with
`total_apps = 1`, writes two Activity Log entries, and creates no items. -/
theorem createBatchRequest_empty_input_creates_state :
    let env : CreateEnv :=
      { appVersion := fun _ => none, storeApp := fun _ => none, userId := "u" }
    let r := createBatchRequest env "" {}
    jsSplit "" ',' = [""] ∧
    r.1.success = true ∧
    r.1.totalApps = some 1 ∧
    r.2.batch.map (·.totalApps) = some 1 ∧
    r.2.batch.map (·.state) = some "draft" ∧
    r.2.items = [] ∧
    r.2.logs.length = 2 := by
  decide

/-- C10 theorem: a candidate list containing an entry that does not resolve
(blank or without a `sys_app_version` record) still succeeds;
`total_apps` counts all split entries, one Batch Item is created per
resolvable entry, and so the item count is strictly below `total_apps` —
with no error reported. -/
theorem createBatchRequest_partial_resolution (env : CreateEnv) (input : String)
    (opts : CreateOptions)
    (h : ∃ raw ∈ jsSplit input ',', resolvable env raw = false) :
    (createBatchRequest env input opts).1.success = true ∧
    (createBatchRequest env input opts).2.batch.map (·.totalApps) =
      some (jsSplit input ',').length ∧
    (createBatchRequest env input opts).2.items.length =
      (jsSplit input ',').countP (resolvable env) ∧
    (createBatchRequest env input opts).2.items.length <
      (jsSplit input ',').length := by
  have hne : jsSplit input ',' ≠ [] := jsSplit_ne_nil input ','
  have hlen : (jsSplit input ',').length ≠ 0 := by
    simpa [List.length_eq_zero] using hne
  have hitems := createBatchItemsGo_length env "batch_1" (jsSplit input ',') 100
  have hcount : (jsSplit input ',').countP (resolvable env) <
      (jsSplit input ',').length := by
    rcases h with ⟨raw, hmem, hfalse⟩
    refine lt_of_le_of_ne (List.countP_le_length _) ?_
    intro heq
    have := List.countP_eq_length.1 heq raw hmem
    simp [hfalse] at this
  refine ⟨?_, ?_, ?_, ?_⟩ <;>
    simp [createBatchRequest, hlen, hitems, hcount, createBatchItems]

/-- C10 witness: input `"good,bad"` where only `good` resolves — the call
succeeds with `total_apps = 2` and a single item. -/
theorem createBatchRequest_partial_resolution_witness :
    let env : CreateEnv :=
      { appVersion := fun s => if s = "good" then some ⟨"2.0.0", "app1"⟩ else none,
        storeApp := fun _ => some ⟨"1.0.0", "App One"⟩, userId := "u" }
    (∃ raw ∈ jsSplit "good,bad" ',', resolvable env raw = false) ∧
    ((createBatchRequest env "good,bad" {}).1.success = true ∧
     (createBatchRequest env "good,bad" {}).2.batch.map (·.totalApps) =
       some (jsSplit "good,bad" ',').length ∧
     (createBatchRequest env "good,bad" {}).2.items.length =
       (jsSplit "good,bad" ',').countP (resolvable env) ∧
     (createBatchRequest env "good,bad" {}).2.items.length <
       (jsSplit "good,bad" ',').length) := by
  refine ⟨⟨"bad", by decide, by decide⟩, ?_⟩
  exact createBatchRequest_partial_resolution _ "good,bad" {} ⟨"bad", by decide, by decide⟩

/-! ## C1 — ground-truth sync at finalization -/

/-- C1 counterexample: an item that the heuristic already marked
`completed`, with a matching installed version, is left untouched by
`_syncFinalItemStates`: no success log entry is written for it (the claim
requires one for every matching item). -/
theorem syncItem_already_completed_no_log :
    let it : BatchItem :=
      { id := "i1", batchRequest := "b1", application := "app1",
        applicationName := "App One", appVersion := "v1",
        fromVersion := "1.0.0", toVersion := "1.0.1", updateLevel := "patch",
        state := "completed", installOrder := 100, progressPercent := 100,
        statusMessage := "Installed successfully", errorMessage := "",
        startTime := some 0, endTime := some 900, durationSeconds := 1 }
    let inventory : String → Option String := fun _ => some "1.0.1"
    let r := syncItem inventory 1000 "b1" (⟨5⟩, []) it
    inventory it.application = some it.toVersion ∧
    r.1 = it ∧
    r.2.2 = [] := by
  decide

/-- C1 theorem (amended): at finalization, for an item whose app record the
inventory resolves: if the installed version equals `to_version` the item
ends `completed` — forced there from any other state with progress 100 and
a freshly appended item-level success log entry; an item already
`completed` is left exactly as it was, with no additional log entry.  If
the versions differ and the item was still `installing`, it ends `failed`
with the version-mismatch error message and an appended item-level error
log entry. -/
theorem syncItem_ground_truth (inventory : String → Option String) (now : Nat)
    (bid : String) (ctx : ActivityLogger × List LogEntry) (it : BatchItem)
    (v : String) (hinv : inventory it.application = some v) :
    (v = it.toVersion →
      (syncItem inventory now bid ctx it).1.state = "completed" ∧
      (it.state ≠ "completed" →
        (syncItem inventory now bid ctx it).1.progressPercent = 100 ∧
        ∃ e, (syncItem inventory now bid ctx it).2.2 = ctx.2 ++ [e] ∧
          e.activityType = "success" ∧ e.batchItem = some it.id) ∧
      (it.state = "completed" →
        (syncItem inventory now bid ctx it).1 = it ∧
        (syncItem inventory now bid ctx it).2.2 = ctx.2)) ∧
    (v ≠ it.toVersion → it.state = "installing" →
      (syncItem inventory now bid ctx it).1.state = "failed" ∧
      (syncItem inventory now bid ctx it).1.errorMessage =
        "Version mismatch after install. Expected " ++ it.toVersion ++
          ", found " ++ v ∧
      ∃ e, (syncItem inventory now bid ctx it).2.2 = ctx.2 ++ [e] ∧
        e.activityType = "error" ∧ e.batchItem = some it.id) := by
  constructor
  · intro hv
    by_cases hstate : it.state = "completed"
    · refine ⟨?_, ?_, ?_⟩ <;>
        simp [syncItem, hinv, hv, hstate]
    · refine ⟨?_, ?_, ?_⟩
      · simp [syncItem, hinv, hv, hstate]
      · intro _
        constructor
        · simp [syncItem, hinv, hv, hstate]
        · refine ⟨(ctx.1.logAppInstallComplete bid (some it.id)
            it.applicationName it.toVersion 0).2, ?_, ?_, ?_⟩ <;>
            simp [syncItem, hinv, hv, hstate,
              ActivityLogger.logAppInstallComplete, ActivityLogger.log]
      · intro hc
        exact absurd hc hstate
  · intro hv hstate
    have hv' : ¬ (v = it.toVersion) := hv
    refine ⟨?_, ?_, ?_⟩
    · simp [syncItem, hinv, hv', hstate]
    · simp [syncItem, hinv, hv', hstate]
    · refine ⟨(ctx.1.logAppInstallFailed bid (some it.id) it.applicationName
        ("Version not updated to " ++ it.toVersion)).2, ?_, ?_, ?_⟩ <;>
        simp [syncItem, hinv, hv', hstate,
          ActivityLogger.logAppInstallFailed, ActivityLogger.log]

/-- C1 witness: the amended sync evaluated concretely — an `installing` item
with matching installed version is forced to `completed` with progress 100
and a success entry; an `installing` item with a version mismatch is forced
to `failed` with the mismatch message and an error entry. -/
theorem syncItem_ground_truth_witness :
    let mk : String → BatchItem := fun st =>
      { id := "i1", batchRequest := "b1", application := "app1",
        applicationName := "App One", appVersion := "v1",
        fromVersion := "1.0.0", toVersion := "1.0.1", updateLevel := "patch",
        state := st, installOrder := 100, progressPercent := 40,
        statusMessage := "", errorMessage := "",
        startTime := some 0, endTime := none, durationSeconds := 0 }
    let invGood : String → Option String := fun _ => some "1.0.1"
    let invBad : String → Option String := fun _ => some "1.0.0"
    invGood (mk "installing").application = some (mk "installing").toVersion ∧
    ((syncItem invGood 1000 "b1" (⟨0⟩, []) (mk "installing")).1.state = "completed") ∧
    ((syncItem invGood 1000 "b1" (⟨0⟩, []) (mk "installing")).1.progressPercent = 100) ∧
    ((syncItem invBad 1000 "b1" (⟨0⟩, []) (mk "installing")).1.state = "failed") := by
  intro mk invGood invBad
  refine ⟨rfl, ?_, ?_, ?_⟩
  · exact ((syncItem_ground_truth _ 1000 "b1" (⟨0⟩, []) (mk "installing")
      "1.0.1" rfl).1 rfl).1
  · exact (((syncItem_ground_truth _ 1000 "b1" (⟨0⟩, []) (mk "installing")
      "1.0.1" rfl).1 rfl).2.1 (by decide)).1
  · exact ((syncItem_ground_truth _ 1000 "b1" (⟨0⟩, []) (mk "installing")
      "1.0.0" rfl).2 (by decide) rfl).1

/-! ## C3 — timeout finalization -/

/-- The heuristic item update never produces a `failed` item. -/
theorem updateInstallingItems_no_failed (now : Nat) (msg : String)
    (p iIdx tot : Nat) :
    ∀ (items : List BatchItem) (idx : Nat),
      (∀ it ∈ items, it.state ≠ "failed") →
      ∀ it' ∈ updateInstallingItems now msg p iIdx tot items idx,
        it'.state ≠ "failed" := by
  intro items
  induction items with
  | nil => intro idx _ it' h'; simp [updateInstallingItems] at h'
  | cons hd rest ih =>
    intro idx hni it' h'
    have hhd : hd.state ≠ "failed" := hni hd (List.mem_cons_self hd rest)
    have hrest : ∀ x ∈ rest, x.state ≠ "failed" :=
      fun x hx => hni x (List.mem_cons_of_mem hd hx)
    by_cases hinst : hd.state = "installing"
    · simp only [updateInstallingItems, hinst, if_pos] at h'
      rcases List.mem_cons.1 h' with he | ht
      · by_cases h1 : idx < iIdx
        · simp only [he, h1, if_pos]
          simp [heuristicComplete]
        · by_cases h2 : idx = iIdx
          · simp only [he, h1, if_neg, not_false_iff, h2, if_pos]
            simp [hinst]
          · simp only [he, h1, h2, if_neg, not_false_iff]
            exact hhd
      · exact ih (idx + 1) hrest it' ht
    · simp only [updateInstallingItems, hinst, if_neg, not_false_iff] at h'
      rcases List.mem_cons.1 h' with he | ht
      · exact he ▸ hhd
      · exact ih idx hrest it' ht

/-- The estimator `_parseAndUpdateItems` never produces a `failed` item. -/
theorem parseAndUpdateItems_no_failed (items : List BatchItem) (msg : String)
    (p now : Nat) (hni : ∀ it ∈ items, it.state ≠ "failed") :
    ∀ it' ∈ parseAndUpdateItems items msg p now, it'.state ≠ "failed" := by
  intro it' h'
  simp only [parseAndUpdateItems] at h'
  split at h'
  · exact updateInstallingItems_no_failed now msg p _ _ items 0 hni it' h'
  · exact hni it' h'

/-- One non-terminal, in-time iteration: the loop recurses on the tail with
the batch record's state and error summary untouched and no `failed` item
introduced. -/
theorem runMonitor_cons_nonterminal (cfg : MonCfg) (o : Obs) (rest : List Obs)
    (st : MonState) (w : Worker)
    (he : ¬ o.elapsed > MAX_POLL_TIME_MS) (hw : o.worker = some w)
    (hterm : ¬(w.state = "complete" ∨ w.state = "cancelled" ∨ w.state = "error")) :
    ∃ st', runMonitor cfg (o :: rest) st = runMonitor cfg rest st' ∧
      st'.batch.map (·.state) = st.batch.map (·.state) ∧
      st'.batch.map (·.errorSummary) = st.batch.map (·.errorSummary) ∧
      st'.batch.isSome = st.batch.isSome ∧
      ((∀ it ∈ st.items, it.state ≠ "failed") →
        ∀ it ∈ st'.items, it.state ≠ "failed") := by
  simp only [runMonitor, he, hw, hterm, if_false, ite_false, if_true, ite_true]
  refine ⟨_, rfl, ?_, ?_, ?_, ?_⟩
  · split <;> split <;> cases hb : st.batch <;> simp [updateBatchProgress]
  · split <;> split <;> cases hb : st.batch <;> simp [updateBatchProgress]
  · split <;> split <;> cases hb : st.batch <;> simp [updateBatchProgress]
  · intro hni
    split <;> split <;>
      first
      | exact hni
      | exact fun it hit => parseAndUpdateItems_no_failed st.items w.message
          w.percentComplete o.now hni it hit

/-- A timed-out iteration: the loop logs the timeout warning and finalizes
with `'failed'`/`'Monitor timeout'`; with no `failed` item the batch state
becomes `failed` and the error summary is left untouched. -/
theorem runMonitor_timeout_step (cfg : MonCfg) (o : Obs) (rest : List Obs)
    (st : MonState) (he : o.elapsed > MAX_POLL_TIME_MS)
    (hni : ∀ it ∈ st.items, it.state ≠ "failed") :
    (runMonitor cfg (o :: rest) st).outputs = some ("failed", "Monitor timeout") ∧
    (runMonitor cfg (o :: rest) st).batch.map (·.state) =
      st.batch.map (fun _ => "failed") ∧
    (runMonitor cfg (o :: rest) st).batch.map (·.errorSummary) =
      st.batch.map (·.errorSummary) ∧
    ∃ e ∈ (runMonitor cfg (o :: rest) st).logs,
      e.activityType = "warning" ∧
      e.message = "Progress monitor timed out after 2 hours" := by
  have hf : st.items.filter (fun it => it.state = "failed") = [] :=
    List.filter_eq_nil_iff.mpr (fun a ha => by simp [hni a ha])
  refine ⟨?_, ?_, ?_, ?_⟩
  · simp [runMonitor, he, finalizeInto, finalizeBatch, hf]
  · simp only [runMonitor, he, if_true, ite_true, finalizeInto, finalizeBatch, hf]
    cases st.batch <;> simp
  · simp only [runMonitor, he, if_true, ite_true, finalizeInto, finalizeBatch, hf]
    cases st.batch <;> simp
  · refine ⟨(st.logger.log cfg.batchRequestId none "warning" "installation"
      "Progress monitor timed out after 2 hours" {}).2, ?_, ?_, ?_⟩
    · simp [runMonitor, he, finalizeInto, finalizeBatch, hf]
    · simp [ActivityLogger.log]
    · simp [ActivityLogger.log]

/-- C3 theorem (amended): a run whose trace reaches an over-2-hours
iteration after only in-time, non-terminal reads finalizes the batch:
the flow outputs are `('failed', 'Monitor timeout')`, the batch record (if
it loads) is written to state `failed` — never left `in_progress` — and a
warning Activity Log entry records the timeout; but the Batch Request's
`error_summary` is left exactly as it was (the timeout cause is not written
there — the summary is only set, to a failed-item count, when some item is
`failed`). -/
theorem monitor_timeout_finalizes_failed (cfg : MonCfg) (post : List Obs) (o : Obs)
    (hto : o.elapsed > MAX_POLL_TIME_MS) :
    ∀ (pre : List Obs) (st : MonState),
      (∀ p ∈ pre, p.elapsed ≤ MAX_POLL_TIME_MS ∧
        ∃ w, p.worker = some w ∧
          ¬(w.state = "complete" ∨ w.state = "cancelled" ∨ w.state = "error")) →
      (∀ it ∈ st.items, it.state ≠ "failed") →
      (runMonitor cfg (pre ++ o :: post) st).outputs = some ("failed", "Monitor timeout") ∧
      (runMonitor cfg (pre ++ o :: post) st).batch.map (·.state) =
        st.batch.map (fun _ => "failed") ∧
      (runMonitor cfg (pre ++ o :: post) st).batch.map (·.errorSummary) =
        st.batch.map (·.errorSummary) ∧
      ∃ e ∈ (runMonitor cfg (pre ++ o :: post) st).logs,
        e.activityType = "warning" ∧
        e.message = "Progress monitor timed out after 2 hours" := by
  intro pre
  induction pre with
  | nil =>
    intro st _ hni
    simpa using runMonitor_timeout_step cfg o post st hto hni
  | cons p pre' ih =>
    intro st hpre hni
    obtain ⟨hel, w, hw, hterm⟩ := hpre p (List.mem_cons_self p pre')
    have he : ¬ p.elapsed > MAX_POLL_TIME_MS := by omega
    obtain ⟨st', heq, hstate, hsummary, hsome, hitems⟩ :=
      runMonitor_cons_nonterminal cfg p (pre' ++ o :: post) st w he hw hterm
    have hpre' : ∀ q ∈ pre', q.elapsed ≤ MAX_POLL_TIME_MS ∧
        ∃ w, q.worker = some w ∧
          ¬(w.state = "complete" ∨ w.state = "cancelled" ∨ w.state = "error") :=
      fun q hq => hpre q (List.mem_cons_of_mem p hq)
    obtain ⟨hout, hst, hsum, hlog⟩ := ih st' hpre' (hitems hni)
    have hshape : st'.batch.map (fun _ => "failed") = st.batch.map (fun _ => "failed") := by
      cases h1 : st'.batch <;> cases h2 : st.batch <;> simp_all
    rw [List.cons_append, heq]
    exact ⟨hout, by rw [hst, hshape], by rw [hsum, hsummary], hlog⟩

/-- C3 counterexample: a concrete timed-out run — one installing item, the
batch's `error_summary` empty — ends with state `failed` and the timeout
cause in the outputs and the warning log entry, but `error_summary` is still
the empty string: the timeout cause is not captured in the Batch Request's
error summary, contrary to the claim. -/
theorem monitor_timeout_error_summary_empty :
    let b : BatchRequest :=
      { requestedBy := "u", totalApps := 1, state := "in_progress",
        scheduledStart := none, installNotes := "", completedApps := 0,
        failedApps := 0, skippedApps := 0, overallProgress := 0,
        actualStart := some 0, actualEnd := none, durationSeconds := 0,
        errorSummary := "", batchManifest := [], progressWorker := "pw1" }
    let it : BatchItem :=
      { id := "i1", batchRequest := "b1", application := "app1",
        applicationName := "App One", appVersion := "v1",
        fromVersion := "1.0.0", toVersion := "1.0.1", updateLevel := "patch",
        state := "installing", installOrder := 100, progressPercent := 0,
        statusMessage := "", errorMessage := "",
        startTime := some 0, endTime := none, durationSeconds := 0 }
    let cfg : MonCfg :=
      { batchRequestId := "b1", progressWorkerId := "pw1",
        inventory := fun _ => none }
    let r := monitorRun cfg (some b) [it] [⟨7200001, 7200001, none⟩]
    r.outputs = some ("failed", "Monitor timeout") ∧
    r.batch.map (·.state) = some "failed" ∧
    r.batch.map (·.errorSummary) = some "" := by
  decide

/-- C3 witness: the amended theorem applied to the concrete timed-out run
above (empty prefix, one over-time observation). -/
theorem monitor_timeout_finalizes_failed_witness :
    let st : MonState :=
      { batch := some
          { requestedBy := "u", totalApps := 1, state := "in_progress",
            scheduledStart := none, installNotes := "", completedApps := 0,
            failedApps := 0, skippedApps := 0, overallProgress := 0,
            actualStart := some 0, actualEnd := none, durationSeconds := 0,
            errorSummary := "", batchManifest := [], progressWorker := "pw1" },
        items := [], logger := ⟨1⟩, logs := [], lastMessage := "",
        lastPercent := -1, pollCount := 0, progressWrites := [], outputs := none }
    let cfg : MonCfg :=
      { batchRequestId := "b1", progressWorkerId := "pw1",
        inventory := fun _ => none }
    let o : Obs := ⟨7200001, 7200001, none⟩
    (7200001 > MAX_POLL_TIME_MS) ∧
    ((runMonitor cfg ([] ++ o :: []) st).outputs = some ("failed", "Monitor timeout") ∧
     (runMonitor cfg ([] ++ o :: []) st).batch.map (·.state) =
       st.batch.map (fun _ => "failed") ∧
     (runMonitor cfg ([] ++ o :: []) st).batch.map (·.errorSummary) =
       st.batch.map (·.errorSummary) ∧
     ∃ e ∈ (runMonitor cfg ([] ++ o :: []) st).logs,
       e.activityType = "warning" ∧
       e.message = "Progress monitor timed out after 2 hours") := by
  intro st cfg o
  refine ⟨by decide, ?_⟩
  exact monitor_timeout_finalizes_failed cfg [] o (by decide) [] st
    (by intro p hp; simp at hp) (by intro x hx; simp at hx)

/-! ## C4 — overall progress milestones -/

/-- The milestone-write invariant threaded through the loop: given a
non-decreasing remaining percent trace that stays at or above
`lastPercent`, the persisted milestone list stays strictly increasing and
all multiples of ten. -/
theorem runMonitor_writes_inv (cfg : MonCfg) :
    ∀ (obs : List Obs) (st : MonState),
      List.Pairwise (· ≤ ·) (percentsOf obs) →
      (∀ p ∈ percentsOf obs, st.lastPercent ≤ (p : Int)) →
      st.progressWrites.Pairwise (· < ·) →
      (∀ w ∈ st.progressWrites, w % 10 = 0) →
      (∀ w ∈ st.progressWrites, (w : Int) ≤ st.lastPercent) →
      (runMonitor cfg obs st).progressWrites.Pairwise (· < ·) ∧
      (∀ w ∈ (runMonitor cfg obs st).progressWrites, w % 10 = 0) := by
  intro obs
  induction obs with
  | nil =>
    intro st _ _ h1 h2 _
    exact ⟨h1, h2⟩
  | cons o rest ih =>
    intro st hmono hlast h1 h2 h3
    by_cases he : o.elapsed > MAX_POLL_TIME_MS
    · simp only [runMonitor]
      rw [if_pos he]
      exact ⟨h1, h2⟩
    · cases hw : o.worker with
      | none =>
        have hperc : percentsOf (o :: rest) = percentsOf rest := by
          simp [percentsOf, hw]
        rw [hperc] at hmono hlast
        simp only [runMonitor]
        rw [if_neg he]
        simp only [hw]
        by_cases hp : st.pollCount + 1 > 20
        · rw [if_pos hp]
          exact ⟨h1, h2⟩
        · rw [if_neg hp]
          exact ih _ hmono hlast h1 h2 h3
      | some w =>
        have hperc : percentsOf (o :: rest) =
            w.percentComplete :: percentsOf rest := by
          simp [percentsOf, hw]
        rw [hperc] at hmono hlast
        have hheadrest : ∀ p ∈ percentsOf rest,
            (w.percentComplete : Int) ≤ (p : Int) := by
          intro p hp
          exact_mod_cast (List.pairwise_cons.1 hmono).1 p hp
        have hlasthead : st.lastPercent ≤ (w.percentComplete : Int) :=
          hlast _ (List.mem_cons_self _ _)
        have hlastrest : ∀ p ∈ percentsOf rest, st.lastPercent ≤ (p : Int) :=
          fun p hp => hlast p (List.mem_cons_of_mem _ hp)
        have hmonorest : List.Pairwise (· ≤ ·) (percentsOf rest) :=
          (List.pairwise_cons.1 hmono).2
        have hmil : ∀ (hc : (w.percentComplete : Int) ≠ st.lastPercent ∧
            w.percentComplete % 10 = 0 ∧ w.percentComplete > 0),
            (st.progressWrites ++ (if st.batch.isSome then [w.percentComplete]
              else [])).Pairwise (· < ·) ∧
            (∀ x ∈ st.progressWrites ++ (if st.batch.isSome then
              [w.percentComplete] else []), x % 10 = 0) ∧
            (∀ x ∈ st.progressWrites ++ (if st.batch.isSome then
              [w.percentComplete] else []), (x : Int) ≤ (w.percentComplete : Int)) := by
          intro hc
          have hlt : st.lastPercent < (w.percentComplete : Int) :=
            lt_of_le_of_ne hlasthead (Ne.symm hc.1)
          have hmem : ∀ b ∈ (if st.batch.isSome then [w.percentComplete]
              else ([] : List Nat)), b = w.percentComplete := by
            intro b hb
            split at hb
            · exact List.mem_singleton.1 hb
            · exact absurd hb (List.not_mem_nil b)
          refine ⟨?_, ?_, ?_⟩
          · rw [List.pairwise_append]
            refine ⟨h1, ?_, ?_⟩
            · split
              · simp
              · simp
            · intro a ha b hb
              rcases hmem b hb with rfl
              have := lt_of_le_of_lt (h3 a ha) hlt
              exact_mod_cast this
          · intro x hx
            rcases List.mem_append.1 hx with hx1 | hx2
            · exact h2 x hx1
            · rcases hmem x hx2 with rfl
              exact hc.2.1
          · intro x hx
            rcases List.mem_append.1 hx with hx1 | hx2
            · exact le_of_lt (lt_of_le_of_lt (h3 x hx1) hlt)
            · rcases hmem x hx2 with rfl
              exact le_refl _
        simp only [runMonitor]
        rw [if_neg he]
        simp only [hw]
        by_cases hm : w.message ≠ st.lastMessage
        · rw [if_pos hm]
          dsimp only
          by_cases hc : (w.percentComplete : Int) ≠ st.lastPercent ∧
              w.percentComplete % 10 = 0 ∧ w.percentComplete > 0
          · rw [if_pos hc]
            dsimp only
            by_cases ht : w.state = "complete" ∨ w.state = "cancelled" ∨
                w.state = "error"
            · rw [if_pos ht]
              by_cases herr : w.errorMessage ≠ ""
              · rw [if_pos herr]
                exact ⟨(hmil hc).1, (hmil hc).2.1⟩
              · rw [if_neg herr]
                exact ⟨(hmil hc).1, (hmil hc).2.1⟩
            · rw [if_neg ht]
              exact ih _ hmonorest hheadrest (hmil hc).1 (hmil hc).2.1 (hmil hc).2.2
          · rw [if_neg hc]
            by_cases ht : w.state = "complete" ∨ w.state = "cancelled" ∨
                w.state = "error"
            · rw [if_pos ht]
              by_cases herr : w.errorMessage ≠ ""
              · rw [if_pos herr]
                exact ⟨h1, h2⟩
              · rw [if_neg herr]
                exact ⟨h1, h2⟩
            · rw [if_neg ht]
              exact ih _ hmonorest hlastrest h1 h2 h3
        · rw [if_neg hm]
          dsimp only
          by_cases hc : (w.percentComplete : Int) ≠ st.lastPercent ∧
              w.percentComplete % 10 = 0 ∧ w.percentComplete > 0
          · rw [if_pos hc]
            dsimp only
            by_cases ht : w.state = "complete" ∨ w.state = "cancelled" ∨
                w.state = "error"
            · rw [if_pos ht]
              by_cases herr : w.errorMessage ≠ ""
              · rw [if_pos herr]
                exact ⟨(hmil hc).1, (hmil hc).2.1⟩
              · rw [if_neg herr]
                exact ⟨(hmil hc).1, (hmil hc).2.1⟩
            · rw [if_neg ht]
              exact ih _ hmonorest hheadrest (hmil hc).1 (hmil hc).2.1 (hmil hc).2.2
          · rw [if_neg hc]
            by_cases ht : w.state = "complete" ∨ w.state = "cancelled" ∨
                w.state = "error"
            · rw [if_pos ht]
              by_cases herr : w.errorMessage ≠ ""
              · rw [if_pos herr]
                exact ⟨h1, h2⟩
              · rw [if_neg herr]
                exact ⟨h1, h2⟩
            · rw [if_neg ht]
              exact ih _ hmonorest hlastrest h1 h2 h3

/-- C4 counterexample: the milestone condition is `percent !== lastPercent`,
not `percent > lastPercent`; with the handle's non-monotonic
`percent_complete` reading 50 and then 30, the loop persists
`overall_progress = 50` and then `overall_progress = 30` — the persisted
value decreases while the batch is `in_progress`. -/
theorem monitor_progress_can_decrease :
    let b : BatchRequest :=
      { requestedBy := "u", totalApps := 1, state := "in_progress",
        scheduledStart := none, installNotes := "", completedApps := 0,
        failedApps := 0, skippedApps := 0, overallProgress := 0,
        actualStart := some 0, actualEnd := none, durationSeconds := 0,
        errorSummary := "", batchManifest := [], progressWorker := "pw1" }
    let cfg : MonCfg :=
      { batchRequestId := "b1", progressWorkerId := "pw1",
        inventory := fun _ => none }
    let w : Nat → Worker := fun p =>
      { state := "running", message := "", percentComplete := p,
        errorMessage := "", outputSummary := "" }
    let r := monitorRun cfg (some b) []
      [⟨1000, 1000, some (w 50)⟩, ⟨2000, 2000, some (w 30)⟩]
    r.progressWrites = [50, 30] ∧
    ¬ r.progressWrites.Pairwise (· ≤ ·) := by
  decide

/-- C4 theorem (amended): each persisted milestone is a positive multiple of
ten, fired when the read percent differs from the last milestone value; the
write sequence is strictly increasing — each multiple fired at most once —
provided the handle's percent readings are non-decreasing.  (For genuinely
non-monotonic readings a lower value can be persisted after a higher one;
see the counterexample.) -/
theorem monitor_milestones_monotone (cfg : MonCfg) (batch : Option BatchRequest)
    (items : List BatchItem) (obs : List Obs)
    (hmono : List.Pairwise (· ≤ ·) (percentsOf obs)) :
    (monitorRun cfg batch items obs).progressWrites.Pairwise (· < ·) ∧
    (∀ w ∈ (monitorRun cfg batch items obs).progressWrites, w % 10 = 0) ∧
    (monitorRun cfg batch items obs).progressWrites.Nodup := by
  have h := runMonitor_writes_inv cfg obs
    { batch := batch, items := items,
      logger := ((⟨0⟩ : ActivityLogger).log cfg.batchRequestId none "info"
        "installation"
        ("Progress monitor started. Tracking worker: " ++ cfg.progressWorkerId) {}).1,
      logs := [((⟨0⟩ : ActivityLogger).log cfg.batchRequestId none "info"
        "installation"
        ("Progress monitor started. Tracking worker: " ++ cfg.progressWorkerId) {}).2],
      lastMessage := "", lastPercent := -1, pollCount := 0,
      progressWrites := [], outputs := none }
    hmono
    (by
      intro p _
      show (-1 : Int) ≤ (p : Int)
      omega)
    (by simp) (by simp) (by simp)
  refine ⟨h.1, h.2, ?_⟩
  exact h.1.imp ne_of_lt

/-- C4 witness: the amended theorem on a concrete non-decreasing trace
(10 then 20): the persisted milestones are strictly increasing multiples of
ten. -/
theorem monitor_milestones_monotone_witness :
    let b : BatchRequest :=
      { requestedBy := "u", totalApps := 1, state := "in_progress",
        scheduledStart := none, installNotes := "", completedApps := 0,
        failedApps := 0, skippedApps := 0, overallProgress := 0,
        actualStart := some 0, actualEnd := none, durationSeconds := 0,
        errorSummary := "", batchManifest := [], progressWorker := "pw1" }
    let cfg : MonCfg :=
      { batchRequestId := "b1", progressWorkerId := "pw1",
        inventory := fun _ => none }
    let w : Nat → Worker := fun p =>
      { state := "running", message := "", percentComplete := p,
        errorMessage := "", outputSummary := "" }
    let obs : List Obs := [⟨1000, 1000, some (w 10)⟩, ⟨2000, 2000, some (w 20)⟩]
    List.Pairwise (· ≤ ·) (percentsOf obs) ∧
    ((monitorRun cfg (some b) [] obs).progressWrites.Pairwise (· < ·) ∧
     (∀ x ∈ (monitorRun cfg (some b) [] obs).progressWrites, x % 10 = 0) ∧
     (monitorRun cfg (some b) [] obs).progressWrites.Nodup) := by
  intro b cfg w obs
  refine ⟨by decide, ?_⟩
  exact monitor_milestones_monotone cfg (some b) [] obs (by decide)

/-! ## C7 / C8 — topological sort -/

/-- Precedence `Before` is stable under extending the list on the right. -/
theorem Before.append_right {l : List String} {d a : String} (t : List String)
    (h : Before l d a) : Before (l ++ t) d a := by
  rcases h with ⟨l1, l2, rfl, hd, ha2, ha1⟩
  exact ⟨l1, l2 ++ t, by rw [List.append_assoc], hd, List.mem_append_left t ha2, ha1⟩

/-- Precedence `Before` gives the strict `indexOf` ordering. -/
theorem Before.indexOf_lt {l : List String} {d a : String} (h : Before l d a) :
    l.indexOf d < l.indexOf a := by
  rcases h with ⟨l1, l2, rfl, hd, ha2, ha1⟩
  rw [List.indexOf_append_of_mem hd, List.indexOf_append_of_not_mem ha1]
  exact lt_of_lt_of_le (List.indexOf_lt_length.2 hd) (Nat.le_add_right _ _)

/-- Bookkeeping invariants of the `visit` recursion: well-formedness of the
marker sets is preserved, the order and conflict lists only grow, every
requested id not on the path ends up in the order, path members never become
visited, a requested id already on the path strictly grows the conflict
list, and — when no conflict is recorded — the order stays topologically
sorted. -/
theorem visitMany_spec (appIds : List String) (depMap : String → List String) :
    ∀ (remaining ids path : List String) (s : SortState),
      remaining.Nodup →
      (∀ x, x ∈ remaining ↔ (x ∈ appIds ∧ x ∉ path)) →
      (∀ x ∈ ids, x ∈ appIds) →
      (∀ x ∈ path, x ∉ s.visited) →
      SortInv appIds s →
      SortInv appIds (visitMany appIds depMap remaining ids path s) ∧
      (∃ t, (visitMany appIds depMap remaining ids path s).order = s.order ++ t) ∧
      (∃ c, (visitMany appIds depMap remaining ids path s).conflicts =
        s.conflicts ++ c) ∧
      (∀ x ∈ ids, x ∉ path → x ∈ (visitMany appIds depMap remaining ids path s).order) ∧
      (∀ x ∈ path, x ∉ (visitMany appIds depMap remaining ids path s).visited) ∧
      (∀ x ∈ ids, x ∈ path →
        s.conflicts.length <
          (visitMany appIds depMap remaining ids path s).conflicts.length) ∧
      (SortedOrder appIds depMap s.order →
        (visitMany appIds depMap remaining ids path s).conflicts = s.conflicts →
        SortedOrder appIds depMap (visitMany appIds depMap remaining ids path s).order) := by
  intro remaining ids path s
  induction remaining, ids, path, s using visitMany.induct appIds depMap with
  | case1 remaining path s =>
    intro hrem hchar hids hpathV hinv
    simp only [visitMany]
    exact ⟨hinv, ⟨[], by simp⟩, ⟨[], by simp⟩,
      fun x hx => absurd hx (List.not_mem_nil x),
      hpathV, fun x hx => absurd hx (List.not_mem_nil x), fun hs _ => hs⟩
  | case2 remaining id rest path s s1 ih1 ih2 =>
    intro hrem hchar hids hpathV hinv
    have hidsrest : ∀ x ∈ rest, x ∈ appIds :=
      fun x hx => hids x (List.mem_cons_of_mem id hx)
    by_cases hpath : id ∈ path
    · -- the id is on the current path: a conflict is pushed
      have hstep : visitMany appIds depMap remaining (id :: rest) path s =
          visitMany appIds depMap remaining rest path s1 := by
        have hs1 : s1 =
            { visited := s.visited
              order := s.order
              conflicts := s.conflicts ++ [cycleConflictMsg id] } := by
          unfold_let s1
          rw [dif_pos hpath]
        simp only [visitMany]
        rw [if_pos hpath, hs1]
      rw [hstep]
      have hsv : s1.visited = s.visited := by
        unfold_let s1
        rw [dif_pos hpath]
      have hso : s1.order = s.order := by
        unfold_let s1
        rw [dif_pos hpath]
      have hsc : s1.conflicts = s.conflicts ++ [cycleConflictMsg id] := by
        unfold_let s1
        rw [dif_pos hpath]
      have hinv1 : SortInv appIds s1 :=
        ⟨by rw [hso]; exact hinv.1,
         fun x => by rw [hsv, hso]; exact hinv.2.1 x,
         fun x hx => hinv.2.2 x (by rw [hso] at hx; exact hx)⟩
      have hpathV1 : ∀ x ∈ path, x ∉ s1.visited := by
        intro x hx
        rw [hsv]
        exact hpathV x hx
      obtain ⟨c1inv, ⟨t2, ht2⟩, ⟨c2, hc2⟩, c1mem, c1path, c1grow, c1sort⟩ :=
        ih2 hrem hchar hidsrest hpathV1 hinv1
      rw [hso] at ht2
      rw [hsc] at hc2
      refine ⟨c1inv, ⟨t2, ht2⟩, ⟨[cycleConflictMsg id] ++ c2, by rw [hc2]; simp⟩,
        ?_, c1path, ?_, ?_⟩
      · intro x hx hxp
        rcases List.mem_cons.1 hx with rfl | hx'
        · exact absurd hpath hxp
        · exact c1mem x hx' hxp
      · intro x _ _
        rw [hc2]
        simp
      · intro _ hconfl
        rw [hc2] at hconfl
        have := congrArg List.length hconfl
        simp at this
    · by_cases hvis : id ∈ s.visited
      · -- already visited: no-op on the state
        have hstep : visitMany appIds depMap remaining (id :: rest) path s =
            visitMany appIds depMap remaining rest path s1 := by
          have hs1 : s1 = s := by
            unfold_let s1
            rw [dif_neg hpath, dif_pos hvis]
          simp only [visitMany]
          rw [if_neg hpath, if_pos hvis, hs1]
        rw [hstep]
        have hsv : s1.visited = s.visited := by
          unfold_let s1
          rw [dif_neg hpath, dif_pos hvis]
        have hso : s1.order = s.order := by
          unfold_let s1
          rw [dif_neg hpath, dif_pos hvis]
        have hsc : s1.conflicts = s.conflicts := by
          unfold_let s1
          rw [dif_neg hpath, dif_pos hvis]
        have hinv1 : SortInv appIds s1 :=
          ⟨by rw [hso]; exact hinv.1,
           fun x => by rw [hsv, hso]; exact hinv.2.1 x,
           fun x hx => hinv.2.2 x (by rw [hso] at hx; exact hx)⟩
        have hpathV1 : ∀ x ∈ path, x ∉ s1.visited := by
          intro x hx
          rw [hsv]
          exact hpathV x hx
        obtain ⟨c1inv, ⟨t2, ht2⟩, ⟨c2, hc2⟩, c1mem, c1path, c1grow, c1sort⟩ :=
          ih2 hrem hchar hidsrest hpathV1 hinv1
        rw [hso] at ht2
        rw [hsc] at hc2
        refine ⟨c1inv, ⟨t2, ht2⟩, ⟨c2, hc2⟩, ?_, c1path, ?_, ?_⟩
        · intro x hx hxp
          rcases List.mem_cons.1 hx with rfl | hx'
          · have hxo : x ∈ s.order := (hinv.2.1 x).1 hvis
            rw [ht2]
            exact List.mem_append_left t2 hxo
          · exact c1mem x hx' hxp
        · intro x hx hxp
          rcases List.mem_cons.1 hx with rfl | hx'
          · exact absurd hxp hpath
          · have hgrow := c1grow x hx' hxp
            rw [hsc] at hgrow
            exact hgrow
        · intro hsorted hcfl
          refine c1sort (by rw [hso]; exact hsorted) ?_
          rw [hc2] at hcfl
          rw [hsc, hc2]
          exact hcfl
      · have hmem : id ∈ remaining :=
          (hchar id).2 ⟨hids id (List.mem_cons_self id rest), hpath⟩
        -- the interesting branch: recurse into the in-set dependencies
        obtain ⟨i1inv, ⟨t1, ht1⟩, ⟨c1, hc1⟩, i1mem, i1path, i1grow, i1sort⟩ :=
          ih1 hmem (List.Nodup.erase id hrem)
            (by
              intro x
              rw [List.Nodup.mem_erase_iff hrem, hchar x, List.mem_cons]
              constructor
              · rintro ⟨hne, hx, hnp⟩
                exact ⟨hx, fun hor => hor.elim hne hnp⟩
              · rintro ⟨hx, hnor⟩
                exact ⟨fun he => hnor (Or.inl he), hx, fun hp => hnor (Or.inr hp)⟩)
            (fun x hx => of_decide_eq_true (List.mem_filter.1 hx).2)
            (by
              intro x hx
              rcases List.mem_cons.1 hx with rfl | hx'
              · exact hvis
              · exact hpathV x hx')
            hinv
        set s2 := visitMany appIds depMap (remaining.erase id)
          (List.filter (fun x => decide (x ∈ appIds)) (depMap id)) (id :: path) s
          with hs2def
        have hstep : visitMany appIds depMap remaining (id :: rest) path s =
            visitMany appIds depMap remaining rest path s1 := by
          have hs1 : s1 =
              { visited := id :: s2.visited
                order := s2.order ++ [id]
                conflicts := s2.conflicts } := by
            unfold_let s1
            rw [dif_neg hpath, dif_neg hvis, dif_pos hmem]
          simp only [visitMany]
          rw [if_neg hpath, if_neg hvis, dif_pos hmem, hs1]
        rw [hstep]
        have hsv : s1.visited = id :: s2.visited := by
          unfold_let s1
          rw [dif_neg hpath, dif_neg hvis, dif_pos hmem]
        have hso : s1.order = s2.order ++ [id] := by
          unfold_let s1
          rw [dif_neg hpath, dif_neg hvis, dif_pos hmem]
        have hsc : s1.conflicts = s2.conflicts := by
          unfold_let s1
          rw [dif_neg hpath, dif_neg hvis, dif_pos hmem]
        have hidnotin2 : id ∉ s2.order := by
          intro hcon
          exact (i1path id (List.mem_cons_self id path)) ((i1inv.2.1 id).2 hcon)
        have hinv1 : SortInv appIds s1 := by
          refine ⟨?_, ?_, ?_⟩
          · rw [hso, List.nodup_append]
            exact ⟨i1inv.1, List.nodup_singleton id,
              fun a ha hb => by
                rcases List.mem_singleton.1 hb with rfl
                exact hidnotin2 ha⟩
          · intro x
            rw [hsv, hso]
            simp only [List.mem_cons, List.mem_append, List.mem_singleton,
              List.not_mem_nil, or_false]
            constructor
            · rintro (rfl | hx)
              · exact Or.inr rfl
              · exact Or.inl ((i1inv.2.1 x).1 hx)
            · rintro (hx | rfl)
              · exact Or.inr ((i1inv.2.1 x).2 hx)
              · exact Or.inl rfl
          · intro x hx
            rw [hso] at hx
            rcases List.mem_append.1 hx with hx' | hx'
            · exact i1inv.2.2 x hx'
            · rcases List.mem_singleton.1 hx' with rfl
              exact hids x (List.mem_cons_self x rest)
        have hpathV1 : ∀ x ∈ path, x ∉ s1.visited := by
          intro x hx
          rw [hsv]
          simp only [List.mem_cons]
          rintro (rfl | hcon)
          · exact hpath hx
          · exact i1path x (List.mem_cons_of_mem id hx) hcon
        obtain ⟨c1inv, ⟨t2, ht2⟩, ⟨c2, hc2⟩, c1mem, c1path, c1grow, c1sort⟩ :=
          ih2 hrem hchar hidsrest hpathV1 hinv1
        rw [hso, ht1] at ht2
        rw [hsc, hc1] at hc2
        have hidin : id ∈ (visitMany appIds depMap remaining rest path s1).order := by
          rw [ht2]
          simp
        refine ⟨c1inv,
          ⟨t1 ++ [id] ++ t2, by rw [ht2]; simp [List.append_assoc]⟩,
          ⟨c1 ++ c2, by rw [hc2]; simp [List.append_assoc]⟩,
          ?_, c1path, ?_, ?_⟩
        · intro x hx hxp
          rcases List.mem_cons.1 hx with rfl | hx'
          · exact hidin
          · exact c1mem x hx' hxp
        · intro x hx hxp
          rcases List.mem_cons.1 hx with rfl | hx'
          · exact absurd hxp hpath
          · have hgrow := c1grow x hx' hxp
            rw [hsc, hc1] at hgrow
            rw [hc2] at hgrow ⊢
            simp only [List.length_append] at hgrow ⊢
            omega
        · intro hsorted hcfl
          rw [hc2] at hcfl
          have hlen := congrArg List.length hcfl
          simp only [List.length_append] at hlen
          have hc1nil : c1 = [] := List.length_eq_zero.1 (by omega)
          have hc2nil : c2 = [] := List.length_eq_zero.1 (by omega)
          have hs2confl : s2.conflicts = s.conflicts := by
            rw [hc1, hc1nil]
            simp
          have hsorted2 : SortedOrder appIds depMap s2.order :=
            i1sort hsorted hs2confl
          have hsorted1 : SortedOrder appIds depMap s1.order := by
            rw [hso]
            intro a ha d hd hdset
            rcases List.mem_append.1 ha with ha' | ha'
            · exact Before.append_right [id] (hsorted2 a ha' d hd hdset)
            · rcases List.mem_singleton.1 ha' with rfl
              have hdin : d ∈ List.filter (fun x => decide (x ∈ appIds)) (depMap a) :=
                List.mem_filter.2 ⟨hd, by simp [hdset]⟩
              have hdnp : d ∉ a :: path := by
                intro hdp
                have hg := i1grow d hdin hdp
                rw [hs2confl] at hg
                omega
              have hdord : d ∈ s2.order := i1mem d hdin hdnp
              exact ⟨s2.order, [a], rfl, hdord, List.mem_singleton.2 rfl, hidnotin2⟩
          refine c1sort hsorted1 ?_
          rw [hc2, hsc, hc1, hc1nil, hc2nil]
          simp

/-- Walking a dependency-chained path up to its head follows edges of the
restricted graph. -/
theorem reach_head (appIds : List String) (depMap : String → List String) :
    ∀ (t : List String) (h : String),
      List.Chain' (fun x y => x ∈ depMap y) (h :: t) →
      (∀ y ∈ h :: t, y ∈ appIds) → ∀ x ∈ h :: t,
      Relation.ReflTransGen (inSetDep appIds depMap) x h := by
  intro t
  induction t with
  | nil =>
    intro h _ _ x hx
    rcases List.mem_cons.1 hx with rfl | hx'
    · exact Relation.ReflTransGen.refl
    · exact absurd hx' (List.not_mem_nil x)
  | cons h2 t2 ih =>
    intro h hchain hsub x hx
    rcases List.mem_cons.1 hx with rfl | hx'
    · exact Relation.ReflTransGen.refl
    · have hedge : inSetDep appIds depMap h2 h :=
        ⟨hsub h2 (List.mem_cons_of_mem h (List.mem_cons_self h2 t2)),
         hsub h (List.mem_cons_self h (h2 :: t2)),
         (List.chain'_cons.1 hchain).1⟩
      have hreach := ih h2 (List.chain'_cons.1 hchain).2
        (fun y hy => hsub y (List.mem_cons_of_mem h hy)) x hx'
      exact Relation.ReflTransGen.tail hreach hedge

/-- In an acyclic restricted dependency graph, the `visit` recursion never
records a conflict: the `visiting` check can only fire on a cycle. -/
theorem visitMany_conflicts_of_acyclic (appIds : List String)
    (depMap : String → List String)
    (hacyc : ∀ a, ¬ Relation.TransGen (inSetDep appIds depMap) a a) :
    ∀ (remaining ids path : List String) (s : SortState),
      remaining.Nodup →
      (∀ x, x ∈ remaining ↔ (x ∈ appIds ∧ x ∉ path)) →
      (∀ x ∈ ids, x ∈ appIds) →
      (∀ x ∈ path, x ∈ appIds) →
      List.Chain' (fun x y => x ∈ depMap y) path →
      (∀ h t, path = h :: t → ∀ x ∈ ids, x ∈ depMap h) →
      (visitMany appIds depMap remaining ids path s).conflicts = s.conflicts := by
  intro remaining ids path s
  induction remaining, ids, path, s using visitMany.induct appIds depMap with
  | case1 remaining path s =>
    intro _ _ _ _ _ _
    simp only [visitMany]
  | case2 remaining id rest path s s1 ih1 ih2 =>
    intro hrem hchar hids hpathA hchain hhead
    have hidsrest : ∀ x ∈ rest, x ∈ appIds :=
      fun x hx => hids x (List.mem_cons_of_mem id hx)
    have hheadrest : ∀ h t, path = h :: t → ∀ x ∈ rest, x ∈ depMap h :=
      fun h t hp x hx => hhead h t hp x (List.mem_cons_of_mem id hx)
    by_cases hpath : id ∈ path
    · -- a conflict here would witness a cycle
      exfalso
      cases path with
      | nil => exact absurd hpath (List.not_mem_nil id)
      | cons h t =>
        have hedge : inSetDep appIds depMap h id :=
          ⟨hpathA h (List.mem_cons_self h t),
           hids id (List.mem_cons_self id rest),
           hhead h t rfl id (List.mem_cons_self id rest)⟩
        have hreach := reach_head appIds depMap t h hchain hpathA id hpath
        exact hacyc id (Relation.TransGen.tail' hreach hedge)
    · by_cases hvis : id ∈ s.visited
      · have hstep : visitMany appIds depMap remaining (id :: rest) path s =
            visitMany appIds depMap remaining rest path s1 := by
          have hs1 : s1 = s := by
            unfold_let s1
            rw [dif_neg hpath, dif_pos hvis]
          simp only [visitMany]
          rw [if_neg hpath, if_pos hvis, hs1]
        have hsc : s1.conflicts = s.conflicts := by
          unfold_let s1
          rw [dif_neg hpath, dif_pos hvis]
        rw [hstep, ih2 hrem hchar hidsrest hpathA hchain hheadrest, hsc]
      · have hmem : id ∈ remaining :=
          (hchar id).2 ⟨hids id (List.mem_cons_self id rest), hpath⟩
        set s2 := visitMany appIds depMap (remaining.erase id)
          (List.filter (fun x => decide (x ∈ appIds)) (depMap id)) (id :: path) s
          with hs2def
        have hstep : visitMany appIds depMap remaining (id :: rest) path s =
            visitMany appIds depMap remaining rest path s1 := by
          have hs1 : s1 =
              { visited := id :: s2.visited
                order := s2.order ++ [id]
                conflicts := s2.conflicts } := by
            unfold_let s1
            rw [dif_neg hpath, dif_neg hvis, dif_pos hmem]
          simp only [visitMany]
          rw [if_neg hpath, if_neg hvis, dif_pos hmem, hs1]
        have hsc : s1.conflicts = s2.conflicts := by
          unfold_let s1
          rw [dif_neg hpath, dif_neg hvis, dif_pos hmem]
        have hinner : s2.conflicts = s.conflicts := by
          rw [hs2def]
          refine ih1 hmem (List.Nodup.erase id hrem) ?_
            (fun x hx => of_decide_eq_true (List.mem_filter.1 hx).2)
            (by
              intro x hx
              rcases List.mem_cons.1 hx with rfl | hx'
              · exact hids x (List.mem_cons_self x rest)
              · exact hpathA x hx')
            ?_ ?_
          · intro x
            rw [List.Nodup.mem_erase_iff hrem, hchar x, List.mem_cons]
            constructor
            · rintro ⟨hne, hx, hnp⟩
              exact ⟨hx, fun hor => hor.elim hne hnp⟩
            · rintro ⟨hx, hnor⟩
              exact ⟨fun he => hnor (Or.inl he), hx, fun hp => hnor (Or.inr hp)⟩
          · cases path with
            | nil => simp
            | cons h t =>
              exact List.chain'_cons.2 ⟨hhead h t rfl id (List.mem_cons_self id rest),
                hchain⟩
          · intro h t hp x hx
            obtain rfl : h = id := by injection hp with h1 _; exact h1.symm
            exact (List.mem_filter.1 hx).1
        rw [hstep, ih2 hrem hchar hidsrest hpathA hchain hheadrest, hsc, hinner]

/-- A topologically sorted order covering the candidate set rules out
cycles in the restricted graph: along an edge the index strictly drops. -/
theorem sortedOrder_no_cycle (appIds : List String)
    (depMap : String → List String) (order : List String)
    (hsorted : SortedOrder appIds depMap order)
    (hall : ∀ x ∈ appIds, x ∈ order) :
    ∀ a, ¬ Relation.TransGen (inSetDep appIds depMap) a a := by
  have hedge : ∀ x y, inSetDep appIds depMap x y →
      order.indexOf y < order.indexOf x := by
    rintro x y ⟨hx, hy, hdep⟩
    exact (hsorted x (hall x hx) y hdep hy).indexOf_lt
  have hlt : ∀ {x y}, Relation.TransGen (inSetDep appIds depMap) x y →
      order.indexOf y < order.indexOf x := by
    intro x y h
    induction h with
    | single e => exact hedge _ _ e
    | tail h' e ih => exact lt_trans (hedge _ _ e) ih
  intro a h
  exact absurd (hlt h) (lt_irrefl _)

/-- C7 theorem: for a duplicate-free candidate set whose in-set dependency
graph has no cycles, `_topologicalSort` returns an order that is a
permutation of the candidates (every candidate exactly once) and places
every package strictly after each of its in-set dependencies. -/
theorem topologicalSort_acyclic_correct (appIds : List String)
    (depMap : String → List String) (hnd : appIds.Nodup)
    (hacyc : ∀ a, ¬ Relation.TransGen (inSetDep appIds depMap) a a) :
    (topologicalSort appIds depMap).order.Perm appIds ∧
    ∀ a ∈ appIds, ∀ d ∈ depMap a, d ∈ appIds →
      (topologicalSort appIds depMap).order.indexOf d <
        (topologicalSort appIds depMap).order.indexOf a := by
  obtain ⟨rinv, _, _, rmem, _, _, rsort⟩ :=
    visitMany_spec appIds depMap appIds appIds [] ⟨[], [], []⟩ hnd
      (by intro x; simp) (fun x hx => hx)
      (fun x hx => absurd hx (List.not_mem_nil x))
      ⟨List.nodup_nil, fun x => Iff.rfl, fun x hx => absurd hx (List.not_mem_nil x)⟩
  have hconfl : (visitMany appIds depMap appIds appIds [] ⟨[], [], []⟩).conflicts = [] :=
    visitMany_conflicts_of_acyclic appIds depMap hacyc appIds appIds [] ⟨[], [], []⟩
      hnd (by intro x; simp) (fun x hx => hx)
      (fun x hx => absurd hx (List.not_mem_nil x)) List.chain'_nil
      (fun h t hp => absurd hp (by simp))
  have hperm : (topologicalSort appIds depMap).order.Perm appIds := by
    refine (List.perm_ext_iff_of_nodup rinv.1 hnd).2 ?_
    intro x
    exact ⟨fun hx => rinv.2.2 x hx, fun hx => rmem x hx (List.not_mem_nil x)⟩
  have hsorted : SortedOrder appIds depMap
      (visitMany appIds depMap appIds appIds [] ⟨[], [], []⟩).order :=
    rsort (fun a ha => absurd ha (List.not_mem_nil a)) hconfl
  refine ⟨hperm, ?_⟩
  intro a ha d hd hdset
  have hain : a ∈ (topologicalSort appIds depMap).order := hperm.mem_iff.2 ha
  exact (hsorted a hain d hd hdset).indexOf_lt

/-- C7 witness: the acyclic correctness theorem at a concrete two-element
candidate set with no dependencies. -/
theorem topologicalSort_acyclic_correct_witness :
    (["a", "b"] : List String).Nodup ∧
    (∀ a, ¬ Relation.TransGen (inSetDep ["a", "b"] (fun _ => [])) a a) ∧
    ((topologicalSort ["a", "b"] (fun _ => [])).order.Perm ["a", "b"] ∧
     ∀ a ∈ (["a", "b"] : List String), ∀ d ∈ ([] : List String),
       d ∈ (["a", "b"] : List String) →
       (topologicalSort ["a", "b"] (fun _ => [])).order.indexOf d <
         (topologicalSort ["a", "b"] (fun _ => [])).order.indexOf a) := by
  have hacyc : ∀ a, ¬ Relation.TransGen (inSetDep ["a", "b"] (fun _ => [])) a a := by
    intro a h
    cases h with
    | single e => exact absurd e.2.2 (List.not_mem_nil _)
    | tail h' e => exact absurd e.2.2 (List.not_mem_nil _)
  exact ⟨by decide, hacyc,
    topologicalSort_acyclic_correct ["a", "b"] (fun _ => []) (by decide) hacyc⟩

/-- C8 theorem: `_topologicalSort` is a total function in this model (the
`visit` recursion is well-founded on the ids not yet on the path, so the
sort terminates on every finite dependency map, cyclic or not); for any
duplicate-free candidate set it returns an order containing every candidate
exactly once, and whenever the in-set graph has a cycle the conflict list
is non-empty. -/
theorem topologicalSort_total_order (appIds : List String)
    (depMap : String → List String) (hnd : appIds.Nodup) :
    (topologicalSort appIds depMap).order.Perm appIds ∧
    ((∃ a, Relation.TransGen (inSetDep appIds depMap) a a) →
      (topologicalSort appIds depMap).conflicts ≠ []) := by
  obtain ⟨rinv, _, _, rmem, _, _, rsort⟩ :=
    visitMany_spec appIds depMap appIds appIds [] ⟨[], [], []⟩ hnd
      (by intro x; simp) (fun x hx => hx)
      (fun x hx => absurd hx (List.not_mem_nil x))
      ⟨List.nodup_nil, fun x => Iff.rfl, fun x hx => absurd hx (List.not_mem_nil x)⟩
  have hperm : (topologicalSort appIds depMap).order.Perm appIds := by
    refine (List.perm_ext_iff_of_nodup rinv.1 hnd).2 ?_
    intro x
    exact ⟨fun hx => rinv.2.2 x hx, fun hx => rmem x hx (List.not_mem_nil x)⟩
  refine ⟨hperm, ?_⟩
  rintro ⟨a, hcyc⟩ hnil
  have hnil' : (visitMany appIds depMap appIds appIds [] ⟨[], [], []⟩).conflicts = [] :=
    hnil
  have hsorted : SortedOrder appIds depMap
      (visitMany appIds depMap appIds appIds [] ⟨[], [], []⟩).order :=
    rsort (fun x hx => absurd hx (List.not_mem_nil x)) hnil'
  have hall : ∀ x ∈ appIds,
      x ∈ (visitMany appIds depMap appIds appIds [] ⟨[], [], []⟩).order :=
    fun x hx => rmem x hx (List.not_mem_nil x)
  exact sortedOrder_no_cycle appIds depMap _ hsorted hall a hcyc

/-- C8 witness: the totality theorem at a concrete two-element candidate set
with a dependency cycle `a → b → a`; the cycle exists, so the conflict list
is non-empty, and the order still permutes the candidates. -/
theorem topologicalSort_total_order_witness :
    (["a", "b"] : List String).Nodup ∧
    (∃ x, Relation.TransGen
      (inSetDep ["a", "b"]
        (fun x => if x = "a" then ["b"] else if x = "b" then ["a"] else [])) x x) ∧
    ((topologicalSort ["a", "b"]
        (fun x => if x = "a" then ["b"] else if x = "b" then ["a"] else [])).order.Perm
      ["a", "b"] ∧
     (topologicalSort ["a", "b"]
        (fun x => if x = "a" then ["b"] else if x = "b" then ["a"] else [])).conflicts ≠
      []) := by
  have he1 : inSetDep ["a", "b"]
      (fun x => if x = "a" then ["b"] else if x = "b" then ["a"] else []) "a" "b" :=
    ⟨by decide, by decide, by decide⟩
  have he2 : inSetDep ["a", "b"]
      (fun x => if x = "a" then ["b"] else if x = "b" then ["a"] else []) "b" "a" :=
    ⟨by decide, by decide, by decide⟩
  have hcyc := Relation.TransGen.tail (Relation.TransGen.single he1) he2
  have h := topologicalSort_total_order ["a", "b"]
    (fun x => if x = "a" then ["b"] else if x = "b" then ["a"] else []) (by decide)
  exact ⟨by decide, ⟨"a", hcyc⟩, h.1, h.2 ⟨"a", hcyc⟩⟩
